import Mathlib

/-!
Verification of the run-resubmission engine of LogicAppRunResubmitter.

The definitions below are a shallow embedding of the TypeScript source:
`AzureService` (retry executor, run-search paginator, trigger metadata
cache, callback-replay request construction) and the Electron main-process
batch orchestrator (`azure:resubmitRuns` / `azure:cancelResubmit`
handlers).  Machine integers are modelled as `Nat`/`Int`, JavaScript
`undefined`/missing values as `Option`, thrown exceptions as `Except`, and
the event-loop interleaving of the sequential batch path as an explicit
cancellation timeline.
-/

namespace LogicAppResubmitter

/- ── String helpers ─────────────────────────────────────────────────────
JavaScript string primitives used by the source, re-implemented over
`List Char` so that every definition reduces inside the kernel. -/

/-- Lower-case a string character by character (JS `String.prototype.toLowerCase`
on the ASCII range used by the source's pattern constants). -/
def strToLower (s : String) : String := ⟨s.data.map Char.toLower⟩

/-- Upper-case a string character by character (JS `String.prototype.toUpperCase`
on the ASCII range). -/
def strToUpper (s : String) : String := ⟨s.data.map Char.toUpper⟩

/-- Substring containment (JS `String.prototype.includes`). -/
def strContains (s pat : String) : Bool := decide (pat.data <:+: s.data)

/-- Test for a trailing slash (the regex test hidden in `replace(/\/?$/, '/')`). -/
def strEndsWithSlash (s : String) : Bool :=
  match s.data.getLast? with
  | some c => c = '/'
  | none => false

/-- Test for a leading slash (the regex test hidden in `replace(/^\//, '')`). -/
def strStartsWithSlash (s : String) : Bool :=
  match s.data.head? with
  | some c => c = '/'
  | none => false

/- ── Retry executor (`AzureService.executeWithRetry` and helpers) ─────── -/

/-- Error object thrown by the low-level HTTP helpers: `azurePost` attaches
`statusCode` and `retryAfterMs` to the `Error`; other throw sites leave the
extra fields absent (`Option.none` models a missing / non-number field). -/
structure ErrObj where
  statusCode : Option Int
  retryAfterMs : Option Int
  message : String
deriving DecidableEq

/-- Embedding of `AzureService.parseRetryAfter`.  The JS input is the raw
header string together with the ambient clock; here the header is
pre-classified into the three shapes the code distinguishes (absent,
numeric seconds via `Number`, HTTP date via `Date.parse`), since `Number`
and `Date.parse` are platform built-ins.  Returns milliseconds. -/
inductive RetryAfterHeader where
  | absent
  | seconds (n : Nat)
  | httpDate (epochMs : Int)
deriving DecidableEq

/-- Result of `parseRetryAfter`: 0 when absent, seconds times 1000 when
numeric, clamped distance to the date otherwise. -/
def parseRetryAfter (h : RetryAfterHeader) (nowMs : Int) : Int :=
  match h with
  | .absent => 0
  | .seconds n => (n : Int) * 1000
  | .httpDate d => max 0 (d - nowMs)

/-- Embedding of `AzureService.isRateLimitError`: status code 429, or a
throttling indicator inside the lower-cased message. -/
def isRateLimitError (e : ErrObj) : Bool :=
  if e.statusCode = some 429 then true
  else
    let msg := strToLower e.message
    strContains msg "429" || strContains msg "throttl" ||
      strContains msg "rate limit" || strContains msg "too many requests"

/-- Embedding of `AzureService.isPermanentError`: the `statusCode` field holds
a number in `[400, 500)` other than 429. -/
def isPermanentError (e : ErrObj) : Bool :=
  match e.statusCode with
  | some c => decide (400 ≤ c) && decide (c < 500) && decide (c ≠ 429)
  | none => false

/-- Backoff used by the rate-limit branch of `executeWithRetry`:
`Math.min(Math.pow(2, Math.min(attempt - 1, 10)) * 1000, 300_000)`. -/
def rateLimitBackoff (attempt : Nat) : Nat :=
  min (2 ^ (min (attempt - 1) 10) * 1000) 300000

/-- Backoff used by the permanent-error branch:
`Math.min(Math.pow(2, attempt - 1) * 1000, 10_000)`. -/
def permanentBackoff (attempt : Nat) : Nat :=
  min (2 ^ (attempt - 1) * 1000) 10000

/-- Backoff used by the transient branch:
`Math.min(Math.pow(2, Math.min(attempt - 1, 6)) * 1000, 60_000)`. -/
def transientBackoff (attempt : Nat) : Nat :=
  min (2 ^ (min (attempt - 1) 6) * 1000) 60000

/-- Classification attached to each `onRetry` notification. -/
inductive ErrClass where
  | rateLimited
  | permanent
  | transient
deriving DecidableEq

/-- One `onRetry` callback invocation: the attempt number, the branch that
classified the failure, and the `delayMs` the executor sleeps. -/
structure RetryEvent where
  attempt : Nat
  classification : ErrClass
  delayMs : Nat
deriving DecidableEq

/-- Outcome of one attempt of the wrapped operation. -/
inductive AttemptResult where
  | ok
  | fail (e : ErrObj)

/-- Terminal outcome of the retry loop (fuel models the unbounded `while`;
all claims below are settled at outcomes independent of the fuel). -/
inductive RetryOutcome where
  | succeeded (attempts : Nat)
  | failedOut (e : ErrObj) (attempts : Nat)
  | fuelExhausted
deriving DecidableEq

/-- Embedding of the `while (true)` loop body of
`AzureService.executeWithRetry` with no abort signal.  `op a` is the result
of the a-th invocation of `operation`; `attempt` is the counter before the
`attempt++` at the top of the loop.  `MAX_PERMANENT_RETRIES = 5` bounds
both the permanent and the transient branch (`attempt >= 5` rethrows);
the rate-limit branch retries unboundedly.  The returned list collects the
`onRetry` events in order. -/
def executeWithRetryAux (op : Nat → AttemptResult) :
    Nat → Nat → List RetryEvent × RetryOutcome
  | _, 0 => ([], .fuelExhausted)
  | attempt, fuel + 1 =>
    let a := attempt + 1
    match op a with
    | .ok => ([], .succeeded a)
    | .fail e =>
      if isRateLimitError e then
        let r := executeWithRetryAux op a fuel
        (⟨a, .rateLimited, rateLimitBackoff a⟩ :: r.1, r.2)
      else if isPermanentError e then
        if 5 ≤ a then ([], .failedOut e a)
        else
          let r := executeWithRetryAux op a fuel
          (⟨a, .permanent, permanentBackoff a⟩ :: r.1, r.2)
      else
        if 5 ≤ a then ([], .failedOut e a)
        else
          let r := executeWithRetryAux op a fuel
          (⟨a, .transient, transientBackoff a⟩ :: r.1, r.2)

/-- Run `executeWithRetry` from a fresh `attempt = 0` counter. -/
def executeWithRetry (op : Nat → AttemptResult) (fuel : Nat) :
    List RetryEvent × RetryOutcome :=
  executeWithRetryAux op 0 fuel

/- ── Run search paginator (`AzureService.getRuns`) ─────────────────────
Timestamps are epoch milliseconds (the value of `new Date(...)`); a run
record's fields mirror `run.properties` with JS-absent fields as `none`. -/

/-- One element of a page (`data.value`) as `getRuns` reads it. -/
structure RawRun where
  id : String
  name : String
  status : Option String
  startTimeMs : Option Int
  endTime : Option String
deriving DecidableEq

/-- One element of the result array `allRuns`. -/
structure RunInfo where
  id : String
  name : String
  status : String
  startTimeMs : Int
  endTime : Option String
deriving DecidableEq

/-- Status defaulting `run.properties?.status || 'Unknown'` (JS `||` also
replaces the empty string). -/
def runStatusOf (r : RawRun) : String :=
  match r.status with
  | some s => if s = "" then "Unknown" else s
  | none => "Unknown"

/-- Filter admission test
`!statusFilter || statusFilter.length === 0 || statusFilter.includes(runStatus)`. -/
def passesStatusFilter (sf : Option (List String)) (st : String) : Bool :=
  match sf with
  | none => true
  | some l => l.isEmpty || l.contains st

/-- Record pushed onto `allRuns` for an admitted run. -/
def toRunInfo (r : RawRun) (t : Int) : RunInfo :=
  ⟨r.id, r.name, runStatusOf r, t, r.endTime⟩

/-- Inner `for (const run of runs)` loop of `getRuns` over one page:
returns the runs collected from this page and the `shouldContinue` flag
(false once a run older than `startDate` is seen, which also breaks out of
the page). Runs with no `startTime` are skipped (`continue`). -/
def processPage (startDate endDate : Int) (sf : Option (List String)) :
    List RawRun → List RunInfo × Bool
  | [] => ([], true)
  | r :: rest =>
    match r.startTimeMs with
    | none => processPage startDate endDate sf rest
    | some t =>
      if t < startDate then ([], false)
      else
        let tail := processPage startDate endDate sf rest
        if t ≤ endDate && passesStatusFilter sf (runStatusOf r) then
          (toRunInfo r t :: tail.1, tail.2)
        else tail

/-- Outer `while (nextUrl)` loop of `getRuns`: the remote pagination is
modelled as the list of pages the service would serve; a `nextLink` exists
exactly while pages remain.  Stops fetching further pages once a page sets
`shouldContinue = false`. -/
def getRunsModel (startDate endDate : Int) (sf : Option (List String)) :
    List (List RawRun) → List RunInfo
  | [] => []
  | p :: ps =>
    let r := processPage startDate endDate sf p
    if r.2 then r.1 ++ getRunsModel startDate endDate sf ps else r.1

/-- Specification-side yield predicate for one run ("runs within
`[startTime, endTime]` are yielded if `statusFilter` is empty or contains
the run's status"), written from the spec's words for comparison with
`getRunsModel`. -/
def specYield (startDate endDate : Int) (sf : Option (List String))
    (r : RawRun) : Option RunInfo :=
  match r.startTimeMs with
  | some t =>
    if startDate ≤ t && t ≤ endDate && passesStatusFilter sf (runStatusOf r) then
      some (toRunInfo r t)
    else none
  | none => none

/-- Start time with a default, used only to phrase the newest-first
hypothesis on inputs whose start times are all present. -/
def startTimeD (r : RawRun) : Int := r.startTimeMs.getD 0

/- ── Trigger type classification (`getTriggerType`) ──────────────────── -/

/-- JS `a || b` on string-or-absent operands: an absent or empty string
falls through to the right operand. -/
def jsOrStr (a b : Option String) : Option String :=
  match a with
  | some s => if s = "" then b else some s
  | none => b

/-- Embedding of `AzureService.inferTriggerTypeFromName`: note that
"request" and "http" are substring tests while "manual" is an exact
equality test on the lower-cased name. -/
def inferTriggerTypeFromName (name : Option String) : Option String :=
  match name with
  | none => none
  | some n =>
    let lower := strToLower n
    if strContains lower "request" || strContains lower "http" || lower = "manual" then
      some "Http"
    else if strContains lower "recurrence" || strContains lower "schedule" then
      some "Recurrence"
    else none

/-- Classification step of `AzureService.getTriggerType` for the first
trigger of the workflow:
`trigger?.properties?.kind || trigger?.kind || inferTriggerTypeFromName(trigger?.name) || 'Unknown'`. -/
def triggerTypeOf (propKind kind name : Option String) : String :=
  (jsOrStr propKind (jsOrStr kind (inferTriggerTypeFromName name))).getD "Unknown"

/- ── Callback replay (`replayRun` steps 5-6 and `rawPost`) ─────────────
The captured trigger-input envelope is a JSON value.  String-valued fields
are modelled as such; a truthy non-string in `method`/`relativePath`
would crash `toUpperCase`/`replace` in the source and is outside the
modelled domain. -/

/-- JSON values as `replayRun` consumes them (`triggerInputs`). -/
inductive J where
  | null
  | bool (b : Bool)
  | num (n : Int)
  | str (s : String)
  | obj (fields : List (String × J))

/-- JS truthiness of a JSON value. -/
def jsTruthy : J → Bool
  | .null => false
  | .bool b => b
  | .num n => n ≠ 0
  | .str s => s ≠ ""
  | .obj _ => true

/-- Property read `j[k]` returning `undefined` (`none`) off objects. -/
def jGet : J → String → Option J
  | .obj fs, k => fs.lookup k
  | _, _ => none

/-- Escape one character the way `JSON.stringify` does for the characters
relevant here (quote, backslash, and common control characters). -/
def jsonEscapeChar (c : Char) : List Char :=
  if c = '"' then ['\\', '"']
  else if c = '\\' then ['\\', '\\']
  else if c = '\n' then ['\\', 'n']
  else if c = '\r' then ['\\', 'r']
  else if c = '\t' then ['\\', 't']
  else [c]

/-- Quote a string as a JSON string literal. -/
def jsonQuote (s : String) : String :=
  ⟨'"' :: s.data.flatMap jsonEscapeChar ++ ['"']⟩

mutual

/-- Serialization `JSON.stringify` for the modelled JSON fragment, used by
`rawPost` when the body is not already a string. -/
def jsonStringify : J → String
  | .null => "null"
  | .bool b => if b then "true" else "false"
  | .num n => toString n
  | .str s => jsonQuote s
  | .obj fs => "\x7b" ++ jsonStringifyFields fs ++ "\x7d"

/-- Comma-separated `"key":value` members of an object literal. -/
def jsonStringifyFields : List (String × J) → String
  | [] => ""
  | [(k, v)] => jsonQuote k ++ ":" ++ jsonStringify v
  | (k, v) :: rest =>
    jsonQuote k ++ ":" ++ jsonStringify v ++ "," ++ jsonStringifyFields rest

end

/-- Callback URL split at the query string: the SAS signature lives in
`query` and is untouched by the `relativePath` pathname edit. -/
structure UrlModel where
  pathname : String
  query : String
deriving DecidableEq

/-- Pathname edit `urlObj.pathname.replace(/\/?$/, '/')`: drop one optional
trailing slash, then append a slash. -/
def ensureTrailingSlash (p : String) : String :=
  if strEndsWithSlash p then p else p ++ "/"

/-- Relative path edit `relativePath.replace(/^\//, '')`: drop one leading
slash if present. -/
def stripLeadingSlash (s : String) : String :=
  if strStartsWithSlash s then ⟨s.data.drop 1⟩ else s

/-- Intermediate values of `replayRun` step 5: the mutable locals `method`,
`targetUrl`, `contentType`, `body` (JS `undefined` is `none`). -/
structure ReplayParts where
  method : String
  url : UrlModel
  contentType : String
  body : Option J

/-- String-field read guarded by JS truthiness: yields the string only when
the property is a non-empty string. -/
def jsStrField (j : J) (k : String) : Option String :=
  match jGet j k with
  | some (.str s) => if s = "" then none else some s
  | _ => none

/-- Embedding of `replayRun` step 5: derive method, target URL, content
type and body from the fetched `triggerInputs` envelope and the callback
URL.  Follows the source's branch structure: the envelope must be a truthy
object to be destructured, otherwise it is used as the body verbatim. -/
def extractReplayParts (triggerInputs : J) (callbackUrl : UrlModel) : ReplayParts :=
  match triggerInputs with
  | .obj fs =>
    let env := J.obj fs
    let method :=
      match jsStrField env "method" with
      | some m => strToUpper m
      | none => "POST"
    let url :=
      match jsStrField env "relativePath" with
      | some rp =>
        { callbackUrl with
          pathname := ensureTrailingSlash callbackUrl.pathname ++ stripLeadingSlash rp }
      | none => callbackUrl
    let headers :=
      match jGet env "headers" with
      | some h => if jsTruthy h then h else J.obj []
      | none => J.obj []
    let ct :=
      match jsStrField headers "Content-Type" with
      | some s => s
      | none =>
        match jsStrField headers "content-type" with
        | some s => s
        | none => "application/json"
    match jGet env "body" with
    | some rawBody =>
      match rawBody with
      | .obj bfs =>
        match bfs.lookup "$content" with
        | some c =>
          let ctFinal :=
            match bfs.lookup "$content-type" with
            | some (.str s) => if s = "" then ct else s
            | _ => ct
          ⟨method, url, ctFinal, some c⟩
        | none => ⟨method, url, ct, some rawBody⟩
      | _ => ⟨method, url, ct, some rawBody⟩
    | none => ⟨method, url, ct, none⟩
  | other => ⟨"POST", callbackUrl, "application/json", some other⟩

/-- HTTP request as issued by `rawPost`. -/
structure HttpRequest where
  method : String
  url : UrlModel
  headers : List (String × String)
  body : Option String
deriving DecidableEq

/-- Body serialization in `rawPost`:
`body == null ? undefined : typeof body === 'string' ? body : JSON.stringify(body)`. -/
def serializeBody : Option J → Option String
  | none => none
  | some .null => none
  | some (.str s) => some s
  | some v => some (jsonStringify v)

/-- Embedding of `rawPost`: the only header sent is `Content-Type` — the
callback URL carries SAS auth in its query string and no `Authorization`
header is attached. -/
def rawPostRequest (url : UrlModel) (body : Option J) (contentType method : String) :
    HttpRequest :=
  ⟨method, url, [("Content-Type", contentType)], serializeBody body⟩

/-- Full replay request: step 5 extraction piped into step 6 `rawPost`. -/
def replayRequest (triggerInputs : J) (callbackUrl : UrlModel) : HttpRequest :=
  let p := extractReplayParts triggerInputs callbackUrl
  rawPostRequest p.url p.body p.contentType p.method

/- ── Trigger-name cache (`resubmitRun` lines 298-311) ─────────────────── -/

/-- Cache key `subscriptionId/resourceGroup/logicAppName/workflowName`. -/
def triggerCacheKey (subscriptionId resourceGroup logicAppName workflowName : String) :
    String :=
  subscriptionId ++ "/" ++ resourceGroup ++ "/" ++ logicAppName ++ "/" ++ workflowName

/-- Cache-miss path of the trigger-name resolution step of `resubmitRun`:
fetch the run's detail record — `runDetailTrigger runId` models
`runDetails.properties?.trigger?.name` — store it in `triggerNameCache`,
and count one discovery call.  A falsy fetched name throws. -/
def resolveTriggerNameFetch (runDetailTrigger : String → Option String)
    (cache : List (String × String)) (cacheKey runId : String) :
    Except String (String × List (String × String) × Nat) :=
  match runDetailTrigger runId with
  | some t =>
    if t = "" then .error ("Could not determine trigger name for run " ++ runId)
    else .ok (t, (cacheKey, t) :: cache, 1)
  | none => .error ("Could not determine trigger name for run " ++ runId)

/-- Cache consultation wrapped around the fetch (the `if (!triggerName)`
guard: both an absent and an empty cached value take the fetch path). -/
def resolveTriggerName (runDetailTrigger : String → Option String)
    (cache : List (String × String)) (cacheKey runId : String) :
    Except String (String × List (String × String) × Nat) :=
  match cache.lookup cacheKey with
  | some t =>
    if t = "" then resolveTriggerNameFetch runDetailTrigger cache cacheKey runId
    else .ok (t, cache, 0)
  | none => resolveTriggerNameFetch runDetailTrigger cache cacheKey runId

/- ── Batch orchestrator, sequential mode (`azure:resubmitRuns`) ────────
The main process is single-threaded: in sequential mode the only points
at which the `azure:cancelResubmit` handler can run are the awaits.  Time
is discretized so that the top-of-loop check for run `i` (and the
synchronous entry check of `processRun`, which no await separates from it)
happens at instant `2*i`, and run `i` executes across instant `2*i + 1`.
A cancellation request arriving at instant `c` makes `resubmitCancelled`
read true at every instant `≥ c`. -/

/-- Value of the shared `resubmitCancelled` flag at an instant. -/
def cancelFlagAt (cancelAt : Option Nat) (t : Nat) : Bool :=
  match cancelAt with
  | some c => decide (c ≤ t)
  | none => false

/-- Outcome of `submitFn` for one run, if it executes: the promise
resolves (`ok`), rejects with an ordinary error (`err`), or rejects with
the `AbortError` raised by the retry executor once the abort signal —
tripped only by `azure:cancelResubmit` — fires (`abortedErr`). -/
inductive RunBehavior where
  | ok
  | err (msg : String)
  | abortedErr
deriving DecidableEq

/-- Mutable `results` record of the `azure:resubmitRuns` handler. -/
structure BatchResults where
  success : Nat
  failed : Nat
  cancelled : Bool
  errors : List (String × String)
deriving DecidableEq

/-- Embedding of `processRun` for run index `i`: the synchronous entry
check of `resubmitCancelled` (instant `2*i`), then the try/catch around
`submitFn`.  A resolved promise increments `success` unconditionally; a
rejection is swallowed uncounted when it is an `AbortError` or when
`resubmitCancelled` reads true at catch time (instant `2*i + 1`);
otherwise it increments `failed` and appends to `errors`.  The boolean
reports whether the run began executing (`submitFn` was invoked). -/
def processRunModel (cancelAt : Option Nat) (i : Nat) (runId : String)
    (b : RunBehavior) (res : BatchResults) : BatchResults × Bool :=
  if cancelFlagAt cancelAt (2 * i) then (res, false)
  else
    (match b with
     | .ok => { res with success := res.success + 1 }
     | .abortedErr => res
     | .err m =>
       if cancelFlagAt cancelAt (2 * i + 1) then res
       else { res with failed := res.failed + 1, errors := res.errors ++ [(runId, m)] },
     true)

/-- Sequential scheduling loop of `azure:resubmitRuns`: at each index the
loop first checks `resubmitCancelled` (setting `cancelled := true` and
breaking when set), then awaits `processRun`.  Also returns the indices of
the runs that began executing, in order.  `behavior i` is the outcome run
`i` would produce if it executes. -/
def runBatchSeqAux (cancelAt : Option Nat) (behavior : Nat → RunBehavior) :
    Nat → List String → BatchResults → BatchResults × List Nat
  | _, [], res => (res, [])
  | i, runId :: rest, res =>
    if cancelFlagAt cancelAt (2 * i) then ({ res with cancelled := true }, [])
    else
      let step := processRunModel cancelAt i runId (behavior i) res
      let next := runBatchSeqAux cancelAt behavior (i + 1) rest step.1
      (next.1, (if step.2 then [i] else []) ++ next.2)

/-- One sequential batch from the handler's fresh
`results = { success: 0, failed: 0, cancelled: false, errors: [] }`. -/
def runBatchSeq (cancelAt : Option Nat) (behavior : Nat → RunBehavior)
    (runIds : List String) : BatchResults × List Nat :=
  runBatchSeqAux cancelAt behavior 0 runIds ⟨0, 0, false, []⟩

/- ── Outcome categories for the counting invariant ─────────────────────
Specification-side classification of each requested index, written from
the spec's outcome vocabulary. -/

/-- Run `i` is counted a success: it executed and its submission resolved. -/
def successAt (cancelAt : Option Nat) (behavior : Nat → RunBehavior) (i : Nat) : Bool :=
  !cancelFlagAt cancelAt (2 * i) && decide (behavior i = .ok)

/-- Run `i` is counted failed: it executed, its submission rejected with an
ordinary error, and cancellation had not been observed by catch time. -/
def failedAt (cancelAt : Option Nat) (behavior : Nat → RunBehavior) (i : Nat) : Bool :=
  !cancelFlagAt cancelAt (2 * i) &&
    (match behavior i with
     | .err _ => !cancelFlagAt cancelAt (2 * i + 1)
     | _ => false)

/-- Run `i` is skipped or aborted due to cancellation: either the flag was
already set before it started, or it was aborted mid-flight, or its failure
was swallowed because cancellation had been observed. -/
def skippedAt (cancelAt : Option Nat) (behavior : Nat → RunBehavior) (i : Nat) : Bool :=
  cancelFlagAt cancelAt (2 * i) ||
    (match behavior i with
     | .abortedErr => true
     | .err _ => cancelFlagAt cancelAt (2 * i + 1)
     | .ok => false)

/- ── Batch orchestrator, bounded-concurrency mode ──────────────────────
The non-sequential path of `azure:resubmitRuns` processes `runIds` in
chunks of `CONCURRENCY = 10`: at each chunk boundary the loop checks
`resubmitCancelled` (setting `cancelled := true` and breaking when set),
then maps `processRun` over `runIds.slice(i, i + 10)` and awaits
`Promise.all`.  The chunk's check and the synchronous entry checks of its
up-to-10 `processRun` calls all run in one event-loop turn, so they read
the flag at a single instant — `checkT k` for chunk `k`; the chunk's
promises then settle in arbitrary order, the rejection of run `i`, if
any, being caught at instant `catchT i` (with `checkT (i / 10) ≤ catchT
i`).  Counter increments and error pushes commute, so the aggregate
result is independent of settlement order; the loop is embedded run by
run in input order — one linearisation of each chunk — with the chunk
check firing at every index divisible by 10. -/

/-- Parallel-mode `processRun` for one run: the entry check reads the flag
at the chunk's check instant `entry`; a rejection is caught at
`catchInstant`.  The boolean reports whether the run began executing. -/
def processRunPar (cancelAt : Option Nat) (entry catchInstant : Nat) (runId : String)
    (b : RunBehavior) (res : BatchResults) : BatchResults × Bool :=
  if cancelFlagAt cancelAt entry then (res, false)
  else
    ((match b with
      | .ok => { res with success := res.success + 1 }
      | .abortedErr => res
      | .err m =>
        if cancelFlagAt cancelAt catchInstant then res
        else { res with failed := res.failed + 1, errors := res.errors ++ [(runId, m)] }),
      true)

/-- Bounded-concurrency scheduling loop of `azure:resubmitRuns`, embedded
run by run: at every chunk boundary (run index divisible by 10) the loop
checks the flag at the chunk's instant `checkT (i / 10)`, setting
`cancelled := true` and breaking when set; within an admitted chunk each
run's entry check reads the same chunk instant and its rejection is
caught at `catchT i`.  Also returns the indices of the runs that began
executing. -/
def runBatchParAux (cancelAt : Option Nat) (checkT catchT : Nat → Nat)
    (behavior : Nat → RunBehavior) :
    Nat → List String → BatchResults → BatchResults × List Nat
  | _, [], res => (res, [])
  | i, runId :: rest, res =>
    if i % 10 = 0 ∧ cancelFlagAt cancelAt (checkT (i / 10)) = true then
      ({ res with cancelled := true }, [])
    else
      let step := processRunPar cancelAt (checkT (i / 10)) (catchT i) runId (behavior i) res
      let next := runBatchParAux cancelAt checkT catchT behavior (i + 1) rest step.1
      (next.1, (if step.2 then [i] else []) ++ next.2)

/-- One bounded-concurrency batch from the handler's fresh
`results = { success: 0, failed: 0, cancelled: false, errors: [] }`. -/
def runBatchPar (cancelAt : Option Nat) (checkT catchT : Nat → Nat)
    (behavior : Nat → RunBehavior) (runIds : List String) : BatchResults × List Nat :=
  runBatchParAux cancelAt checkT catchT behavior 0 runIds ⟨0, 0, false, []⟩

/-- Run `i` is counted a success in the bounded-concurrency mode: its
chunk was admitted and its submission resolved. -/
def successAtPar (cancelAt : Option Nat) (checkT : Nat → Nat)
    (behavior : Nat → RunBehavior) (i : Nat) : Bool :=
  !cancelFlagAt cancelAt (checkT (i / 10)) && decide (behavior i = .ok)

/-- Run `i` is counted failed in the bounded-concurrency mode: its chunk
was admitted, its submission rejected with an ordinary error, and
cancellation had not been observed by its catch instant. -/
def failedAtPar (cancelAt : Option Nat) (checkT catchT : Nat → Nat)
    (behavior : Nat → RunBehavior) (i : Nat) : Bool :=
  !cancelFlagAt cancelAt (checkT (i / 10)) &&
    (match behavior i with
     | .err _ => !cancelFlagAt cancelAt (catchT i)
     | _ => false)

/-- Run `i` is skipped or aborted due to cancellation in the
bounded-concurrency mode. -/
def skippedAtPar (cancelAt : Option Nat) (checkT catchT : Nat → Nat)
    (behavior : Nat → RunBehavior) (i : Nat) : Bool :=
  cancelFlagAt cancelAt (checkT (i / 10)) ||
    (match behavior i with
     | .abortedErr => true
     | .err _ => cancelFlagAt cancelAt (catchT i)
     | .ok => false)

/- ── Lemmas about the retry executor ─────────────────────────────────── -/

/-- One failed non-rate-limited, permanent-classified attempt below the
attempt cap: the executor records a permanent-backoff retry event and loops. -/
lemma executeWithRetryAux_perm_step (op : Nat → AttemptResult) (attempt fuel : Nat)
    (e : ErrObj) (hop : op (attempt + 1) = .fail e)
    (hrl : isRateLimitError e = false) (hp : isPermanentError e = true)
    (hlt : attempt + 1 < 5) :
    executeWithRetryAux op attempt (fuel + 1) =
      (⟨attempt + 1, .permanent, permanentBackoff (attempt + 1)⟩ ::
          (executeWithRetryAux op (attempt + 1) fuel).1,
        (executeWithRetryAux op (attempt + 1) fuel).2) := by
  simp [executeWithRetryAux, hop, hrl, hp, Nat.not_le.mpr hlt]

/-- One failed attempt classified neither rate-limited nor permanent, below
the attempt cap: the executor records a transient-backoff retry event and
loops. -/
lemma executeWithRetryAux_trans_step (op : Nat → AttemptResult) (attempt fuel : Nat)
    (e : ErrObj) (hop : op (attempt + 1) = .fail e)
    (hrl : isRateLimitError e = false) (hp : isPermanentError e = false)
    (hlt : attempt + 1 < 5) :
    executeWithRetryAux op attempt (fuel + 1) =
      (⟨attempt + 1, .transient, transientBackoff (attempt + 1)⟩ ::
          (executeWithRetryAux op (attempt + 1) fuel).1,
        (executeWithRetryAux op (attempt + 1) fuel).2) := by
  simp [executeWithRetryAux, hop, hrl, hp, Nat.not_le.mpr hlt]

/-- A failed non-rate-limited attempt at or above the cap rethrows the
error, whatever its permanent/transient classification. -/
lemma executeWithRetryAux_throw (op : Nat → AttemptResult) (attempt fuel : Nat)
    (e : ErrObj) (hop : op (attempt + 1) = .fail e)
    (hrl : isRateLimitError e = false) (hge : 5 ≤ attempt + 1) :
    executeWithRetryAux op attempt (fuel + 1) = ([], .failedOut e (attempt + 1)) := by
  cases hp : isPermanentError e <;>
    simp [executeWithRetryAux, hop, hrl, hp, hge]

/- ── C1: Retry-After and the rate-limit delay ────────────────────────── -/

/-- C1.  Claim: a 429 failure carrying `Retry-After: 3` produces a retry
delay of exactly 3000 ms, the server-supplied duration being preferred over
the computed exponential backoff.  The code does parse the header —
`parseRetryAfter` yields 3000 ms and `azurePost` stores it on the error as
`retryAfterMs` — but `executeWithRetry` never reads that field: its
rate-limit branch always sleeps the exponential backoff, 1000 ms on the
first attempt, not 3000 ms. -/
theorem retryAfter_parsed_but_delay_is_exponential :
    parseRetryAfter (.seconds 3) 0 = 3000 ∧
    (executeWithRetry
        (fun _ => .fail ⟨some 429, some 3000, "API call failed (429): too many requests"⟩)
        1).1 = [⟨1, .rateLimited, 1000⟩] ∧
    (1000 : Nat) ≠ 3000 := by
  decide

/- ── C4: bounded retries for permanent client errors ─────────────────── -/

/-- C4.  An operation that keeps failing with an error classified Permanent
(a 4xx status other than 429, with no throttling indicator promoting it to
the rate-limit branch) is attempted exactly 5 times: the executor sleeps
the exponential delays 1 s, 2 s, 4 s, 8 s (each `min(2^(attempt-1)*1000,
10000)` ms) after attempts 1-4 and rethrows the error after the 5th
attempt, for any remaining fuel. -/
theorem permanentError_gives_up_after_5_attempts (e : Nat → ErrObj)
    (op : Nat → AttemptResult) (hop : ∀ a, op a = .fail (e a))
    (hrl : ∀ a, isRateLimitError (e a) = false)
    (hp : ∀ a, isPermanentError (e a) = true) (k : Nat) :
    executeWithRetry op (k + 5) =
      ([⟨1, .permanent, 1000⟩, ⟨2, .permanent, 2000⟩,
        ⟨3, .permanent, 4000⟩, ⟨4, .permanent, 8000⟩],
       .failedOut (e 5) 5) := by
  show executeWithRetryAux op 0 (k + 5) = _
  rw [executeWithRetryAux_perm_step op 0 (k + 4) (e 1) (hop 1) (hrl 1) (hp 1) (by norm_num),
    executeWithRetryAux_perm_step op 1 (k + 3) (e 2) (hop 2) (hrl 2) (hp 2) (by norm_num),
    executeWithRetryAux_perm_step op 2 (k + 2) (e 3) (hop 3) (hrl 3) (hp 3) (by norm_num),
    executeWithRetryAux_perm_step op 3 (k + 1) (e 4) (hop 4) (hrl 4) (hp 4) (by norm_num),
    executeWithRetryAux_throw op 4 k (e 5) (hop 5) (hrl 5) (by norm_num)]
  simp [permanentBackoff]

/-- C4 witness: a constant `404 Not Found` failure is retried at most 5
times and then propagated. -/
theorem permanentError_gives_up_after_5_attempts_witness :
    executeWithRetry (fun _ => .fail ⟨some 404, none, "API call failed (404): Not Found"⟩) 5 =
      ([⟨1, .permanent, 1000⟩, ⟨2, .permanent, 2000⟩,
        ⟨3, .permanent, 4000⟩, ⟨4, .permanent, 8000⟩],
       .failedOut ⟨some 404, none, "API call failed (404): Not Found"⟩ 5) :=
  permanentError_gives_up_after_5_attempts
    (fun _ => ⟨some 404, none, "API call failed (404): Not Found"⟩) _
    (fun _ => rfl)
    (fun _ =>
      (by decide :
        isRateLimitError ⟨some 404, none, "API call failed (404): Not Found"⟩ = false))
    (fun _ =>
      (by decide :
        isPermanentError ⟨some 404, none, "API call failed (404): Not Found"⟩ = true))
    0

/- ── C5: bounded retries for transient errors ────────────────────────── -/

/-- C5.  An operation that keeps failing with an error classified neither
RateLimited nor Permanent takes the transient branch, whose policy is
bounded: exactly 5 attempts, with exponential delays 1 s, 2 s, 4 s, 8 s
(each `min(2^(attempt-1)*1000, 60000)` ms) after attempts 1-4, after which
the failure propagates — for any remaining fuel, so the loop never spins
forever on such errors. -/
theorem transientError_gives_up_after_5_attempts (e : Nat → ErrObj)
    (op : Nat → AttemptResult) (hop : ∀ a, op a = .fail (e a))
    (hrl : ∀ a, isRateLimitError (e a) = false)
    (hp : ∀ a, isPermanentError (e a) = false) (k : Nat) :
    executeWithRetry op (k + 5) =
      ([⟨1, .transient, 1000⟩, ⟨2, .transient, 2000⟩,
        ⟨3, .transient, 4000⟩, ⟨4, .transient, 8000⟩],
       .failedOut (e 5) 5) := by
  show executeWithRetryAux op 0 (k + 5) = _
  rw [executeWithRetryAux_trans_step op 0 (k + 4) (e 1) (hop 1) (hrl 1) (hp 1) (by norm_num),
    executeWithRetryAux_trans_step op 1 (k + 3) (e 2) (hop 2) (hrl 2) (hp 2) (by norm_num),
    executeWithRetryAux_trans_step op 2 (k + 2) (e 3) (hop 3) (hrl 3) (hp 3) (by norm_num),
    executeWithRetryAux_trans_step op 3 (k + 1) (e 4) (hop 4) (hrl 4) (hp 4) (by norm_num),
    executeWithRetryAux_throw op 4 k (e 5) (hop 5) (hrl 5) (by norm_num)]
  simp [transientBackoff]

/-- C5 witness: a constant `500` failure is retried 5 times with the
transient backoff and then propagated. -/
theorem transientError_gives_up_after_5_attempts_witness :
    executeWithRetry (fun _ => .fail ⟨some 500, none, "API call failed (500): boom"⟩) 5 =
      ([⟨1, .transient, 1000⟩, ⟨2, .transient, 2000⟩,
        ⟨3, .transient, 4000⟩, ⟨4, .transient, 8000⟩],
       .failedOut ⟨some 500, none, "API call failed (500): boom"⟩ 5) :=
  transientError_gives_up_after_5_attempts
    (fun _ => ⟨some 500, none, "API call failed (500): boom"⟩) _
    (fun _ => rfl)
    (fun _ =>
      (by decide :
        isRateLimitError ⟨some 500, none, "API call failed (500): boom"⟩ = false))
    (fun _ =>
      (by decide :
        isPermanentError ⟨some 500, none, "API call failed (500): boom"⟩ = false))
    0

/- ── C10: non-4xx failures without throttling text are transient ─────── -/

/-- C10.  A failure whose `statusCode` is not a number in `[400, 500)` and
whose lower-cased message contains none of the throttling indicators
"429", "throttl", "rate limit", "too many requests" is classified neither
RateLimited nor Permanent, so `executeWithRetry` takes the transient
branch: it is retried with exponential backoff and gives up after the
5-attempt cap — in particular a `NotAuthenticated` failure (no status
code at all) is retried several times rather than failing immediately. -/
theorem nonClientError_is_transient_and_bounded (e : Nat → ErrObj)
    (op : Nat → AttemptResult) (hop : ∀ a, op a = .fail (e a))
    (hsc : ∀ a c, (e a).statusCode = some c → c < 400 ∨ 500 ≤ c)
    (hmsg : ∀ a,
      strContains (strToLower (e a).message) "429" = false ∧
      strContains (strToLower (e a).message) "throttl" = false ∧
      strContains (strToLower (e a).message) "rate limit" = false ∧
      strContains (strToLower (e a).message) "too many requests" = false)
    (k : Nat) :
    (∀ a, isRateLimitError (e a) = false) ∧
    (∀ a, isPermanentError (e a) = false) ∧
    executeWithRetry op (k + 5) =
      ([⟨1, .transient, 1000⟩, ⟨2, .transient, 2000⟩,
        ⟨3, .transient, 4000⟩, ⟨4, .transient, 8000⟩],
       .failedOut (e 5) 5) := by
  have hrl : ∀ a, isRateLimitError (e a) = false := by
    intro a
    have h429 : (e a).statusCode ≠ some 429 := by
      intro h
      rcases hsc a 429 h with h' | h' <;> omega
    obtain ⟨m1, m2, m3, m4⟩ := hmsg a
    simp [isRateLimitError, h429, m1, m2, m3, m4]
  have hp : ∀ a, isPermanentError (e a) = false := by
    intro a
    unfold isPermanentError
    cases hc : (e a).statusCode with
    | none => rfl
    | some c =>
      rcases hsc a c hc with h' | h' <;> simp <;> omega
  exact ⟨hrl, hp, transientError_gives_up_after_5_attempts e op hop hrl hp k⟩

/-- C10 witness: the `NotAuthenticated` error thrown by `getToken`
("Not authenticated. Please sign in first.", no status code) is retried 5
times with the transient backoff before the failure propagates. -/
theorem nonClientError_is_transient_and_bounded_witness :
    (∀ a : Nat,
      isRateLimitError ((fun _ => ⟨none, none, "Not authenticated. Please sign in first."⟩) a)
        = false) ∧
    (∀ a : Nat,
      isPermanentError ((fun _ => ⟨none, none, "Not authenticated. Please sign in first."⟩) a)
        = false) ∧
    executeWithRetry
        (fun _ => .fail ⟨none, none, "Not authenticated. Please sign in first."⟩) (0 + 5) =
      ([⟨1, .transient, 1000⟩, ⟨2, .transient, 2000⟩,
        ⟨3, .transient, 4000⟩, ⟨4, .transient, 8000⟩],
       .failedOut ⟨none, none, "Not authenticated. Please sign in first."⟩ 5) :=
  nonClientError_is_transient_and_bounded
    (fun _ => ⟨none, none, "Not authenticated. Please sign in first."⟩) _
    (fun _ => rfl)
    (fun _ c h => by simp at h)
    (fun _ =>
      (by decide :
        strContains (strToLower "Not authenticated. Please sign in first.") "429" = false ∧
        strContains (strToLower "Not authenticated. Please sign in first.") "throttl" = false ∧
        strContains (strToLower "Not authenticated. Please sign in first.") "rate limit" = false ∧
        strContains (strToLower "Not authenticated. Please sign in first.") "too many requests"
          = false))
    0

/- ── C7: trigger-type name heuristic ─────────────────────────────────── -/

/-- C7 counterexample: the trigger name "manualTrigger" contains the
substring "manual", yet with no explicit type field the classification is
"Unknown", not "Http" — the code compares the lower-cased name to
"manual" with exact equality, not a substring test. -/
theorem manual_substring_name_not_Http :
    strContains (strToLower "manualTrigger") "manual" = true ∧
    triggerTypeOf none none (some "manualTrigger") = "Unknown" ∧
    ("Unknown" : String) ≠ "Http" := by
  decide

/-- C7 as amended.  With no explicit type field, the name heuristic
classifies: a name containing "request" or "http" (case-insensitively), or
exactly equal to "manual" after lower-casing, as "Http"; otherwise a name
containing "recurrence" or "schedule" as "Recurrence"; any other name as
"Unknown". -/
theorem trigger_name_heuristic (n : String) :
    (strContains (strToLower n) "request" = true ∨ strContains (strToLower n) "http" = true ∨
        strToLower n = "manual" →
      triggerTypeOf none none (some n) = "Http") ∧
    (strContains (strToLower n) "request" = false → strContains (strToLower n) "http" = false →
        strToLower n ≠ "manual" →
        (strContains (strToLower n) "recurrence" = true ∨
          strContains (strToLower n) "schedule" = true) →
      triggerTypeOf none none (some n) = "Recurrence") ∧
    (strContains (strToLower n) "request" = false → strContains (strToLower n) "http" = false →
        strToLower n ≠ "manual" →
        strContains (strToLower n) "recurrence" = false →
        strContains (strToLower n) "schedule" = false →
      triggerTypeOf none none (some n) = "Unknown") := by
  refine ⟨?_, ?_, ?_⟩
  · rintro (h | h | h) <;>
      simp [triggerTypeOf, jsOrStr, inferTriggerTypeFromName, h]
  · intro h1 h2 h3 h4
    rcases h4 with h | h <;>
      simp [triggerTypeOf, jsOrStr, inferTriggerTypeFromName, h1, h2, h3, h]
  · intro h1 h2 h3 h4 h5
    simp [triggerTypeOf, jsOrStr, inferTriggerTypeFromName, h1, h2, h3, h4, h5]

/-- C7 witness: the exact name "manual" is classified Http by the
heuristic. -/
theorem trigger_name_heuristic_witness :
    triggerTypeOf none none (some "manual") = "Http" :=
  (trigger_name_heuristic "manual").1 (Or.inr (Or.inr (by decide)))

/- ── C9: trigger-name discovery is cached across runs ────────────────── -/

/-- A successful trigger-name resolution leaves a non-empty entry for the
key at the front of the lookup order. -/
lemma resolveTriggerName_ok_cache (rd : String → Option String)
    (c0 : List (String × String)) (key r t1 : String)
    (c1 : List (String × String)) (n1 : Nat)
    (h : resolveTriggerName rd c0 key r = .ok (t1, c1, n1)) :
    c1.lookup key = some t1 ∧ t1 ≠ "" ∧ n1 ≤ 1 := by
  unfold resolveTriggerName resolveTriggerNameFetch at h
  rcases hl : c0.lookup key with _ | t <;> rw [hl] at h
  · rcases hf : rd r with _ | u <;> rw [hf] at h
    · simp at h
    · by_cases hu : u = "" <;> simp [hu] at h
      obtain ⟨ht, hc, hn⟩ := h
      subst ht hc hn
      simp [List.lookup, hu]
  · by_cases ht : t = "" <;> simp [ht] at h
    · rcases hf : rd r with _ | u <;> rw [hf] at h
      · simp at h
      · by_cases hu : u = "" <;> simp [hu] at h
        obtain ⟨htt, hc, hn⟩ := h
        subst htt hc hn
        simp [List.lookup, hu]
    · obtain ⟨htt, hc, hn⟩ := h
      subst htt hc hn
      exact ⟨by simp [hl], ht, by omega⟩

/-- C9.  Two sequential Standard-Resubmit trigger-name resolutions for
different runs of the same workflow (same cache key) issue at most one
run-detail discovery call in total: the first resolution performs at most
one fetch (exactly one on a cache miss, storing the name), and the second
always hits the cache, performing none and returning the same name. -/
theorem trigger_name_cached_across_runs (rd : String → Option String)
    (c0 : List (String × String)) (key r1 r2 t1 t2 : String)
    (c1 c2 : List (String × String)) (n1 n2 : Nat)
    (h1 : resolveTriggerName rd c0 key r1 = .ok (t1, c1, n1))
    (h2 : resolveTriggerName rd c1 key r2 = .ok (t2, c2, n2)) :
    n2 = 0 ∧ n1 + n2 ≤ 1 ∧ t2 = t1 ∧ c2 = c1 := by
  obtain ⟨hlook, hne, hn1⟩ := resolveTriggerName_ok_cache rd c0 key r1 t1 c1 n1 h1
  unfold resolveTriggerName at h2
  rw [hlook] at h2
  simp [hne] at h2
  obtain ⟨ht, hc, hn⟩ := h2
  subst ht hc hn
  exact ⟨rfl, by omega, rfl, rfl⟩

/-- C9 witness: starting from an empty cache, resolving runs "r1" then
"r2" of the same workflow issues one discovery call then zero. -/
theorem trigger_name_cached_across_runs_witness :
    (resolveTriggerName (fun _ => some "manual") []
        (triggerCacheKey "sub" "rg" "app" "wf") "r1" =
      .ok ("manual", [(triggerCacheKey "sub" "rg" "app" "wf", "manual")], 1)) ∧
    (resolveTriggerName (fun _ => some "manual")
        [(triggerCacheKey "sub" "rg" "app" "wf", "manual")]
        (triggerCacheKey "sub" "rg" "app" "wf") "r2" =
      .ok ("manual", [(triggerCacheKey "sub" "rg" "app" "wf", "manual")], 0)) ∧
    ((0 : Nat) = 0 ∧ 1 + 0 ≤ 1 ∧ ("manual" : String) = "manual" ∧
      [(triggerCacheKey "sub" "rg" "app" "wf", "manual")] =
        [(triggerCacheKey "sub" "rg" "app" "wf", "manual")]) :=
  ⟨rfl, rfl,
    trigger_name_cached_across_runs (fun _ => some "manual") []
      (triggerCacheKey "sub" "rg" "app" "wf") "r1" "r2" "manual" "manual"
      [(triggerCacheKey "sub" "rg" "app" "wf", "manual")]
      [(triggerCacheKey "sub" "rg" "app" "wf", "manual")] 1 0
      rfl rfl⟩

/- ── C6: run search yields exactly the in-window runs ────────────────── -/

/-- Inner-loop characterisation: on a page whose runs all carry a start
time and are ordered newest-first, the collected runs are exactly the
spec-yielded ones, and the stop flag is lowered only when the page holds a
run older than the window start. -/
lemma processPage_spec (startDate endDate : Int) (sf : Option (List String))
    (page : List RawRun) (hs : ∀ r ∈ page, r.startTimeMs.isSome)
    (hd : page.Pairwise (fun a b => startTimeD b ≤ startTimeD a)) :
    (processPage startDate endDate sf page).1 =
        page.filterMap (specYield startDate endDate sf) ∧
      ((processPage startDate endDate sf page).2 = false →
        ∃ r ∈ page, startTimeD r < startDate) := by
  induction page with
  | nil => simp [processPage]
  | cons r rest ih =>
    obtain ⟨hr, hrest⟩ := List.pairwise_cons.mp hd
    have hsr : r.startTimeMs.isSome := hs r (by simp)
    obtain ⟨t, ht⟩ := Option.isSome_iff_exists.mp hsr
    have htD : startTimeD r = t := by simp [startTimeD, ht]
    obtain ⟨ih1, ih2⟩ := ih (fun x hx => hs x (by simp [hx])) hrest
    by_cases hold : t < startDate
    · refine ⟨?_, fun _ => ⟨r, by simp, by omega⟩⟩
      have hnone : ∀ x ∈ rest, specYield startDate endDate sf x = none := by
        intro x hx
        unfold specYield
        cases hx2 : x.startTimeMs with
        | none => rfl
        | some u =>
          have : startTimeD x ≤ t := htD ▸ hr x hx
          have hu : u = startTimeD x := by simp [startTimeD, hx2]
          have : ¬(startDate ≤ u) := by omega
          simp [this]
      simp [processPage, ht, hold, specYield, show ¬(startDate ≤ t) by omega,
        List.filterMap_eq_nil_iff.mpr hnone]
    · have hyield :
          specYield startDate endDate sf r =
            (if (decide (t ≤ endDate) && passesStatusFilter sf (runStatusOf r)) = true
              then some (toRunInfo r t) else none) := by
        simp [specYield, ht, show startDate ≤ t by omega]
      by_cases hkeep : (decide (t ≤ endDate) && passesStatusFilter sf (runStatusOf r)) = true
      · refine ⟨?_, ?_⟩
        · simp [processPage, ht, hold, hkeep, ih1, List.filterMap_cons, hyield]
        · intro hflag
          rw [show (processPage startDate endDate sf (r :: rest)).2 =
              (processPage startDate endDate sf rest).2 by
            simp [processPage, ht, hold, hkeep]] at hflag
          obtain ⟨x, hx, hxlt⟩ := ih2 hflag
          exact ⟨x, by simp [hx], hxlt⟩
      · refine ⟨?_, ?_⟩
        · simp [processPage, ht, hold, hkeep, ih1, List.filterMap_cons, hyield]
        · intro hflag
          rw [show (processPage startDate endDate sf (r :: rest)).2 =
              (processPage startDate endDate sf rest).2 by
            simp [processPage, ht, hold, hkeep]] at hflag
          obtain ⟨x, hx, hxlt⟩ := ih2 hflag
          exact ⟨x, by simp [hx], hxlt⟩

/-- C6.  On a paginated listing whose runs all carry a start time and
arrive newest-first across the pages, `getRuns` returns exactly the runs
whose start time lies within `[startDate, endDate]` and whose status
passes the filter — pagination stopping at the first run older than the
window start loses nothing.  Moreover an absent or empty status filter
admits every status. -/
theorem getRuns_yields_window (startDate endDate : Int) (sf : Option (List String))
    (pages : List (List RawRun))
    (hs : ∀ r ∈ pages.flatten, r.startTimeMs.isSome)
    (hd : pages.flatten.Pairwise (fun a b => startTimeD b ≤ startTimeD a)) :
    getRunsModel startDate endDate sf pages =
        pages.flatten.filterMap (specYield startDate endDate sf) ∧
      ∀ st, passesStatusFilter none st = true ∧ passesStatusFilter (some []) st = true := by
  refine ⟨?_, fun st => ⟨rfl, rfl⟩⟩
  induction pages with
  | nil => simp [getRunsModel]
  | cons p ps ih =>
    rw [List.flatten_cons] at hs hd
    obtain ⟨hdp, hdps, hcross⟩ := List.pairwise_append.mp hd
    have hsp : ∀ r ∈ p, r.startTimeMs.isSome := fun r hr => hs r (by simp [hr])
    have hsps : ∀ r ∈ ps.flatten, r.startTimeMs.isSome := fun r hr => hs r (by simp [hr])
    obtain ⟨h1, h2⟩ := processPage_spec startDate endDate sf p hsp hdp
    cases hflag : (processPage startDate endDate sf p).2 with
    | true =>
      simp [getRunsModel, hflag, h1, ih hsps hdps, List.flatten_cons]
    | false =>
      obtain ⟨r, hrp, hrlt⟩ := h2 hflag
      have hnone : ∀ x ∈ ps.flatten, specYield startDate endDate sf x = none := by
        intro x hx
        unfold specYield
        cases hx2 : x.startTimeMs with
        | none => rfl
        | some u =>
          have hle : startTimeD x ≤ startTimeD r := hcross r hrp x hx
          have hu : u = startTimeD x := by simp [startTimeD, hx2]
          have : ¬(startDate ≤ u) := by omega
          simp [this]
      simp [getRunsModel, hflag, h1, List.flatten_cons,
        List.filterMap_eq_nil_iff.mpr hnone]

/-- C6 witness: runs at start times 8, 2, −5, −10 (newest first) with
window `[0, 5]` and no status filter yield exactly the run at 2. -/
theorem getRuns_yields_window_witness :
    getRunsModel 0 5 none
        [[⟨"r8", "r8", some "Succeeded", some 8, none⟩,
          ⟨"r2", "r2", some "Succeeded", some 2, none⟩,
          ⟨"rm5", "rm5", some "Failed", some (-5), none⟩,
          ⟨"rm10", "rm10", some "Failed", some (-10), none⟩]] =
      [⟨"r2", "r2", "Succeeded", 2, none⟩] :=
  ((getRuns_yields_window 0 5 none
      [[⟨"r8", "r8", some "Succeeded", some 8, none⟩,
        ⟨"r2", "r2", some "Succeeded", some 2, none⟩,
        ⟨"rm5", "rm5", some "Failed", some (-5), none⟩,
        ⟨"rm10", "rm10", some "Failed", some (-10), none⟩]]
      (by decide) (by decide)).1).trans (by decide)

/- ── Lemmas about the sequential batch loop ──────────────────────────── -/

/-- The cancellation flag is monotone along the timeline: once requested it
stays set. -/
lemma cancelFlagAt_mono (c : Option Nat) (t u : Nat) (h : t ≤ u) :
    cancelFlagAt c t = true → cancelFlagAt c u = true := by
  cases c <;> simp [cancelFlagAt] <;> omega

/-- Effect of one `processRun` on the success counter. -/
lemma processRunModel_success (cancelAt : Option Nat) (i : Nat) (runId : String)
    (b : RunBehavior) (res : BatchResults)
    (hf : cancelFlagAt cancelAt (2 * i) = false) :
    (processRunModel cancelAt i runId b res).1.success =
      res.success + (if b = .ok then 1 else 0) := by
  cases b <;> simp [processRunModel, hf] <;> split <;> simp

/-- Effect of one `processRun` on the failed counter. -/
lemma processRunModel_failed (cancelAt : Option Nat) (i : Nat) (runId : String)
    (b : RunBehavior) (res : BatchResults)
    (hf : cancelFlagAt cancelAt (2 * i) = false) :
    (processRunModel cancelAt i runId b res).1.failed =
      res.failed +
        (if (match b with
             | .err _ => !cancelFlagAt cancelAt (2 * i + 1)
             | _ => false) = true then 1 else 0) := by
  cases b with
  | ok => simp [processRunModel, hf]
  | abortedErr => simp [processRunModel, hf]
  | err m =>
    by_cases h2 : cancelFlagAt cancelAt (2 * i + 1) = true
    · simp [processRunModel, hf, h2]
    · simp only [Bool.not_eq_true] at h2
      simp [processRunModel, hf, h2]

/-- A `processRun` never touches the `cancelled` flag. -/
lemma processRunModel_cancelled (cancelAt : Option Nat) (i : Nat) (runId : String)
    (b : RunBehavior) (res : BatchResults) :
    (processRunModel cancelAt i runId b res).1.cancelled = res.cancelled := by
  by_cases hf : cancelFlagAt cancelAt (2 * i) = true
  · simp [processRunModel, hf]
  · simp only [Bool.not_eq_true] at hf
    cases b <;> simp [processRunModel, hf]
    split <;> simp

/-- A `processRun` only ever appends to the error list. -/
lemma processRunModel_errors (cancelAt : Option Nat) (i : Nat) (runId : String)
    (b : RunBehavior) (res : BatchResults) :
    res.errors <+: (processRunModel cancelAt i runId b res).1.errors := by
  by_cases hf : cancelFlagAt cancelAt (2 * i) = true
  · simp [processRunModel, hf]
  · simp only [Bool.not_eq_true] at hf
    cases b <;> simp [processRunModel, hf]
    split
    · exact List.prefix_rfl
    · exact List.prefix_append _ _

/-- The final success counter is the initial one plus the number of
indices in the remaining window classified `successAt`. -/
lemma runBatchSeqAux_success (cancelAt : Option Nat) (behavior : Nat → RunBehavior) :
    ∀ (ids : List String) (i : Nat) (res : BatchResults),
      (runBatchSeqAux cancelAt behavior i ids res).1.success =
        res.success +
          (List.range ids.length).countP (fun j => successAt cancelAt behavior (i + j)) := by
  intro ids
  induction ids with
  | nil => intro i res; simp [runBatchSeqAux]
  | cons runId rest ih =>
    intro i res
    by_cases hf : cancelFlagAt cancelAt (2 * i) = true
    · have hcount : (List.range (runId :: rest).length).countP
          (fun j => successAt cancelAt behavior (i + j)) = 0 := by
        refine List.countP_eq_zero.mpr ?_
        intro j _
        simp [successAt, cancelFlagAt_mono cancelAt (2 * i) (2 * (i + j)) (by omega) hf]
      rw [hcount]
      simp [runBatchSeqAux, hf]
    · simp only [Bool.not_eq_true] at hf
      have hstep := processRunModel_success cancelAt i runId (behavior i) res hf
      have hshift :
          ((fun j => successAt cancelAt behavior (i + j)) ∘ Nat.succ) =
            fun j => successAt cancelAt behavior ((i + 1) + j) := by
        funext j
        simp only [Function.comp]
        congr 1
        omega
      have hhead : successAt cancelAt behavior (i + 0) =
          decide (behavior i = .ok) := by
        simp [successAt, hf]
      simp only [runBatchSeqAux, hf, Bool.false_eq_true, if_false, ih, hstep,
        List.length_cons, List.range_succ_eq_map, List.countP_cons, List.countP_map,
        hshift, hhead]
      by_cases hb : behavior i = .ok <;> simp [hb] <;> omega

/-- The final failed counter is the initial one plus the number of indices
in the remaining window classified `failedAt`. -/
lemma runBatchSeqAux_failed (cancelAt : Option Nat) (behavior : Nat → RunBehavior) :
    ∀ (ids : List String) (i : Nat) (res : BatchResults),
      (runBatchSeqAux cancelAt behavior i ids res).1.failed =
        res.failed +
          (List.range ids.length).countP (fun j => failedAt cancelAt behavior (i + j)) := by
  intro ids
  induction ids with
  | nil => intro i res; simp [runBatchSeqAux]
  | cons runId rest ih =>
    intro i res
    by_cases hf : cancelFlagAt cancelAt (2 * i) = true
    · have hcount : (List.range (runId :: rest).length).countP
          (fun j => failedAt cancelAt behavior (i + j)) = 0 := by
        refine List.countP_eq_zero.mpr ?_
        intro j _
        simp [failedAt, cancelFlagAt_mono cancelAt (2 * i) (2 * (i + j)) (by omega) hf]
      rw [hcount]
      simp [runBatchSeqAux, hf]
    · simp only [Bool.not_eq_true] at hf
      have hstep := processRunModel_failed cancelAt i runId (behavior i) res hf
      have hshift :
          ((fun j => failedAt cancelAt behavior (i + j)) ∘ Nat.succ) =
            fun j => failedAt cancelAt behavior ((i + 1) + j) := by
        funext j
        simp only [Function.comp]
        congr 1
        omega
      have hhead : failedAt cancelAt behavior (i + 0) =
          (match behavior i with
           | .err _ => !cancelFlagAt cancelAt (2 * i + 1)
           | _ => false) := by
        simp [failedAt, hf]
      simp only [runBatchSeqAux, hf, Bool.false_eq_true, if_false, ih, hstep,
        List.length_cons, List.range_succ_eq_map, List.countP_cons, List.countP_map,
        hshift, hhead]
      cases hb : behavior i <;> simp [hb] <;> omega

/-- The final `cancelled` flag is set exactly when it was already set or
the cancellation became visible at the top-of-loop check of one of the
remaining indices. -/
lemma runBatchSeqAux_cancelled (cancelAt : Option Nat) (behavior : Nat → RunBehavior) :
    ∀ (ids : List String) (i : Nat) (res : BatchResults),
      ((runBatchSeqAux cancelAt behavior i ids res).1.cancelled = true ↔
        res.cancelled = true ∨
          ∃ j, j < ids.length ∧ cancelFlagAt cancelAt (2 * (i + j)) = true) := by
  intro ids
  induction ids with
  | nil => intro i res; simp [runBatchSeqAux]
  | cons runId rest ih =>
    intro i res
    by_cases hf : cancelFlagAt cancelAt (2 * i) = true
    · simp only [runBatchSeqAux, hf, if_true]
      constructor
      · intro _
        exact Or.inr ⟨0, by simp, by simpa using hf⟩
      · intro _
        trivial
    · simp only [Bool.not_eq_true] at hf
      simp only [runBatchSeqAux, hf, Bool.false_eq_true, if_false, ih,
        processRunModel_cancelled]
      constructor
      · rintro (h | ⟨j, hj, hflag⟩)
        · exact Or.inl h
        · refine Or.inr ⟨j + 1, by simp only [List.length_cons]; omega, ?_⟩
          have harith : i + 1 + j = i + (j + 1) := by omega
          rw [harith] at hflag
          exact hflag
      · rintro (h | ⟨j, hj, hflag⟩)
        · exact Or.inl h
        · simp only [List.length_cons] at hj
          cases j with
          | zero =>
            simp only [Nat.add_zero] at hflag
            rw [hflag] at hf
            cases hf
          | succ j =>
            refine Or.inr ⟨j, by omega, ?_⟩
            have harith : i + 1 + j = i + (j + 1) := by omega
            rw [harith]
            exact hflag

/-- Counters never decrease and the error list is only extended: whatever
was recorded before the loop continues is present in the final result. -/
lemma runBatchSeqAux_preserves (cancelAt : Option Nat) (behavior : Nat → RunBehavior) :
    ∀ (ids : List String) (i : Nat) (res : BatchResults),
      res.success ≤ (runBatchSeqAux cancelAt behavior i ids res).1.success ∧
        res.failed ≤ (runBatchSeqAux cancelAt behavior i ids res).1.failed ∧
        res.errors <+: (runBatchSeqAux cancelAt behavior i ids res).1.errors := by
  intro ids
  induction ids with
  | nil => intro i res; simp [runBatchSeqAux]
  | cons runId rest ih =>
    intro i res
    by_cases hf : cancelFlagAt cancelAt (2 * i) = true
    · simp [runBatchSeqAux, hf]
    · simp only [Bool.not_eq_true] at hf
      simp only [runBatchSeqAux, hf, Bool.false_eq_true, if_false]
      obtain ⟨h1, h2, h3⟩ :=
        ih (i + 1) (processRunModel cancelAt i runId (behavior i) res).1
      refine ⟨le_trans ?_ h1, le_trans ?_ h2,
        (processRunModel_errors cancelAt i runId (behavior i) res).trans h3⟩
      · rw [processRunModel_success cancelAt i runId (behavior i) res hf]
        omega
      · rw [processRunModel_failed cancelAt i runId (behavior i) res hf]
        omega

/-- Every run that began executing passed a cancellation check that still
read false. -/
lemma runBatchSeqAux_started (cancelAt : Option Nat) (behavior : Nat → RunBehavior) :
    ∀ (ids : List String) (i : Nat) (res : BatchResults),
      ∀ j ∈ (runBatchSeqAux cancelAt behavior i ids res).2,
        cancelFlagAt cancelAt (2 * j) = false := by
  intro ids
  induction ids with
  | nil => intro i res j hj; simp [runBatchSeqAux] at hj
  | cons runId rest ih =>
    intro i res j hj
    by_cases hf : cancelFlagAt cancelAt (2 * i) = true
    · simp [runBatchSeqAux, hf] at hj
    · simp only [Bool.not_eq_true] at hf
      have hstep2 : (processRunModel cancelAt i runId (behavior i) res).2 = true := by
        simp [processRunModel, hf]
      simp only [runBatchSeqAux, hf, Bool.false_eq_true, if_false, hstep2, if_true,
        List.singleton_append, List.mem_cons] at hj
      rcases hj with rfl | hj
      · exact hf
      · exact ih (i + 1) _ j hj

/-- Each requested index falls in exactly one outcome category. -/
lemma outcome_exactly_one (cancelAt : Option Nat) (behavior : Nat → RunBehavior) (i : Nat) :
    (successAt cancelAt behavior i).toNat + (failedAt cancelAt behavior i).toNat +
      (skippedAt cancelAt behavior i).toNat = 1 := by
  have hmono := cancelFlagAt_mono cancelAt (2 * i) (2 * i + 1) (by omega)
  cases hb : behavior i <;> cases h1 : cancelFlagAt cancelAt (2 * i)
  · simp [successAt, failedAt, skippedAt, hb, h1]
  · simp [successAt, failedAt, skippedAt, hb, h1]
  · cases h2 : cancelFlagAt cancelAt (2 * i + 1) <;>
      simp [successAt, failedAt, skippedAt, hb, h1, h2]
  · simp [successAt, failedAt, skippedAt, hb, h1, hmono h1]
  · simp [successAt, failedAt, skippedAt, hb, h1]
  · simp [successAt, failedAt, skippedAt, hb, h1]

/-- Three pointwise exclusive-and-exhaustive categories count up to the
length of the list. -/
lemma countP_three (p q r : Nat → Bool) (l : List Nat)
    (h : ∀ x ∈ l, (p x).toNat + (q x).toNat + (r x).toNat = 1) :
    l.countP p + l.countP q + l.countP r = l.length := by
  induction l with
  | nil => simp
  | cons a t ih =>
    have ha := h a (by simp)
    have ht := ih fun x hx => h x (by simp [hx])
    simp only [List.countP_cons, List.length_cons]
    cases hp : p a <;> cases hq : q a <;> cases hr : r a <;>
      simp [hp, hq, hr] at ha ⊢ <;> omega

/- ── Lemmas about the bounded-concurrency batch loop ─────────────────── -/

/-- Effect of one parallel-mode `processRun` on the success counter. -/
lemma processRunPar_success (cancelAt : Option Nat) (entry ct : Nat) (runId : String)
    (b : RunBehavior) (res : BatchResults) :
    (processRunPar cancelAt entry ct runId b res).1.success =
      res.success + (!cancelFlagAt cancelAt entry && decide (b = .ok)).toNat := by
  by_cases hf : cancelFlagAt cancelAt entry = true
  · simp [processRunPar, hf]
  · simp only [Bool.not_eq_true] at hf
    cases b with
    | ok => simp [processRunPar, hf]
    | abortedErr => simp [processRunPar, hf]
    | err m =>
      by_cases h2 : cancelFlagAt cancelAt ct = true
      · simp [processRunPar, hf, h2]
      · simp only [Bool.not_eq_true] at h2
        simp [processRunPar, hf, h2]

/-- Effect of one parallel-mode `processRun` on the failed counter. -/
lemma processRunPar_failed (cancelAt : Option Nat) (entry ct : Nat) (runId : String)
    (b : RunBehavior) (res : BatchResults) :
    (processRunPar cancelAt entry ct runId b res).1.failed =
      res.failed +
        (!cancelFlagAt cancelAt entry &&
          (match b with
           | .err _ => !cancelFlagAt cancelAt ct
           | _ => false)).toNat := by
  by_cases hf : cancelFlagAt cancelAt entry = true
  · simp [processRunPar, hf]
  · simp only [Bool.not_eq_true] at hf
    cases b with
    | ok => simp [processRunPar, hf]
    | abortedErr => simp [processRunPar, hf]
    | err m =>
      by_cases h2 : cancelFlagAt cancelAt ct = true
      · simp [processRunPar, hf, h2]
      · simp only [Bool.not_eq_true] at h2
        simp [processRunPar, hf, h2]

/-- A parallel-mode `processRun` never touches the `cancelled` flag. -/
lemma processRunPar_cancelled (cancelAt : Option Nat) (entry ct : Nat) (runId : String)
    (b : RunBehavior) (res : BatchResults) :
    (processRunPar cancelAt entry ct runId b res).1.cancelled = res.cancelled := by
  by_cases hf : cancelFlagAt cancelAt entry = true
  · simp [processRunPar, hf]
  · simp only [Bool.not_eq_true] at hf
    cases b <;> simp [processRunPar, hf]
    split <;> simp

/-- A parallel-mode `processRun` only ever appends to the error list. -/
lemma processRunPar_errors (cancelAt : Option Nat) (entry ct : Nat) (runId : String)
    (b : RunBehavior) (res : BatchResults) :
    res.errors <+: (processRunPar cancelAt entry ct runId b res).1.errors := by
  by_cases hf : cancelFlagAt cancelAt entry = true
  · simp [processRunPar, hf]
  · simp only [Bool.not_eq_true] at hf
    cases b <;> simp [processRunPar, hf]
    split
    · exact List.prefix_rfl
    · exact List.prefix_append _ _

/-- A parallel-mode run begins executing exactly when its chunk's check
instant still read false. -/
lemma processRunPar_started (cancelAt : Option Nat) (entry ct : Nat) (runId : String)
    (b : RunBehavior) (res : BatchResults) :
    (processRunPar cancelAt entry ct runId b res).2 = !cancelFlagAt cancelAt entry := by
  by_cases hf : cancelFlagAt cancelAt entry = true
  · simp [processRunPar, hf]
  · simp only [Bool.not_eq_true] at hf
    simp [processRunPar, hf]

/-- Parallel counting: the final success counter is the initial one plus
the number of remaining indices classified `successAtPar`, provided the
chunk-check instants are in timeline order. -/
lemma runBatchParAux_success (cancelAt : Option Nat) (checkT catchT : Nat → Nat)
    (behavior : Nat → RunBehavior)
    (hmono : ∀ a b, a ≤ b → checkT a ≤ checkT b) :
    ∀ (ids : List String) (i : Nat) (res : BatchResults),
      (runBatchParAux cancelAt checkT catchT behavior i ids res).1.success =
        res.success + (List.range ids.length).countP
          (fun j => successAtPar cancelAt checkT behavior (i + j)) := by
  intro ids
  induction ids with
  | nil => intro i res; simp [runBatchParAux]
  | cons runId rest ih =>
    intro i res
    by_cases hbrk : (i % 10 = 0 ∧ cancelFlagAt cancelAt (checkT (i / 10)) = true)
    · have hcount : (List.range (runId :: rest).length).countP
          (fun j => successAtPar cancelAt checkT behavior (i + j)) = 0 := by
        refine List.countP_eq_zero.mpr ?_
        intro j _
        have hdiv : i / 10 ≤ (i + j) / 10 := Nat.div_le_div_right (by omega)
        have hflag := cancelFlagAt_mono cancelAt (checkT (i / 10)) (checkT ((i + j) / 10))
          (hmono _ _ hdiv) hbrk.2
        simp [successAtPar, hflag]
      rw [hcount]
      simp [runBatchParAux, hbrk]
    · have hshift :
          ((fun j => successAtPar cancelAt checkT behavior (i + j)) ∘ Nat.succ) =
            fun j => successAtPar cancelAt checkT behavior ((i + 1) + j) := by
        funext j
        simp only [Function.comp]
        congr 1
        omega
      simp only [runBatchParAux, if_neg hbrk, ih, processRunPar_success,
        List.length_cons, List.range_succ_eq_map, List.countP_cons, List.countP_map,
        hshift, Nat.add_zero]
      have hhead : (!cancelFlagAt cancelAt (checkT (i / 10)) &&
          decide (behavior i = RunBehavior.ok)) =
            successAtPar cancelAt checkT behavior i := rfl
      rw [hhead]
      have htn : (successAtPar cancelAt checkT behavior i).toNat =
          if successAtPar cancelAt checkT behavior i = true then 1 else 0 := by
        cases successAtPar cancelAt checkT behavior i <;> rfl
      rw [htn]
      split <;> omega

/-- Parallel counting: the final failed counter is the initial one plus
the number of remaining indices classified `failedAtPar`. -/
lemma runBatchParAux_failed (cancelAt : Option Nat) (checkT catchT : Nat → Nat)
    (behavior : Nat → RunBehavior)
    (hmono : ∀ a b, a ≤ b → checkT a ≤ checkT b) :
    ∀ (ids : List String) (i : Nat) (res : BatchResults),
      (runBatchParAux cancelAt checkT catchT behavior i ids res).1.failed =
        res.failed + (List.range ids.length).countP
          (fun j => failedAtPar cancelAt checkT catchT behavior (i + j)) := by
  intro ids
  induction ids with
  | nil => intro i res; simp [runBatchParAux]
  | cons runId rest ih =>
    intro i res
    by_cases hbrk : (i % 10 = 0 ∧ cancelFlagAt cancelAt (checkT (i / 10)) = true)
    · have hcount : (List.range (runId :: rest).length).countP
          (fun j => failedAtPar cancelAt checkT catchT behavior (i + j)) = 0 := by
        refine List.countP_eq_zero.mpr ?_
        intro j _
        have hdiv : i / 10 ≤ (i + j) / 10 := Nat.div_le_div_right (by omega)
        have hflag := cancelFlagAt_mono cancelAt (checkT (i / 10)) (checkT ((i + j) / 10))
          (hmono _ _ hdiv) hbrk.2
        simp [failedAtPar, hflag]
      rw [hcount]
      simp [runBatchParAux, hbrk]
    · have hshift :
          ((fun j => failedAtPar cancelAt checkT catchT behavior (i + j)) ∘ Nat.succ) =
            fun j => failedAtPar cancelAt checkT catchT behavior ((i + 1) + j) := by
        funext j
        simp only [Function.comp]
        congr 1
        omega
      simp only [runBatchParAux, if_neg hbrk, ih, processRunPar_failed,
        List.length_cons, List.range_succ_eq_map, List.countP_cons, List.countP_map,
        hshift, Nat.add_zero]
      have hhead : (!cancelFlagAt cancelAt (checkT (i / 10)) &&
          (match behavior i with
           | .err _ => !cancelFlagAt cancelAt (catchT i)
           | _ => false)) = failedAtPar cancelAt checkT catchT behavior i := rfl
      rw [hhead]
      have htn : (failedAtPar cancelAt checkT catchT behavior i).toNat =
          if failedAtPar cancelAt checkT catchT behavior i = true then 1 else 0 := by
        cases failedAtPar cancelAt checkT catchT behavior i <;> rfl
      rw [htn]
      split <;> omega

/-- Parallel cancellation reporting: the final `cancelled` flag is set
exactly when it was already set or the flag is visible at the chunk-check
instant of a remaining chunk boundary. -/
lemma runBatchParAux_cancelled (cancelAt : Option Nat) (checkT catchT : Nat → Nat)
    (behavior : Nat → RunBehavior) :
    ∀ (ids : List String) (i : Nat) (res : BatchResults),
      ((runBatchParAux cancelAt checkT catchT behavior i ids res).1.cancelled = true ↔
        res.cancelled = true ∨
          ∃ j, j < ids.length ∧ (i + j) % 10 = 0 ∧
            cancelFlagAt cancelAt (checkT ((i + j) / 10)) = true) := by
  intro ids
  induction ids with
  | nil => intro i res; simp [runBatchParAux]
  | cons runId rest ih =>
    intro i res
    by_cases hbrk : (i % 10 = 0 ∧ cancelFlagAt cancelAt (checkT (i / 10)) = true)
    · simp only [runBatchParAux, if_pos hbrk]
      constructor
      · intro _
        exact Or.inr ⟨0, by simp, by simpa using hbrk.1, by simpa using hbrk.2⟩
      · intro _
        trivial
    · simp only [runBatchParAux, if_neg hbrk, ih, processRunPar_cancelled]
      constructor
      · rintro (h | ⟨j, hj, hmod, hflag⟩)
        · exact Or.inl h
        · refine Or.inr ⟨j + 1, by simp only [List.length_cons]; omega, ?_, ?_⟩
          · have harith : i + (j + 1) = i + 1 + j := by omega
            rw [harith]
            exact hmod
          · have harith : i + (j + 1) = i + 1 + j := by omega
            rw [harith]
            exact hflag
      · rintro (h | ⟨j, hj, hmod, hflag⟩)
        · exact Or.inl h
        · simp only [List.length_cons] at hj
          cases j with
          | zero =>
            simp only [Nat.add_zero] at hmod hflag
            exact absurd ⟨hmod, hflag⟩ hbrk
          | succ j =>
            refine Or.inr ⟨j, by omega, ?_, ?_⟩
            · have harith : i + 1 + j = i + (j + 1) := by omega
              rw [harith]
              exact hmod
            · have harith : i + 1 + j = i + (j + 1) := by omega
              rw [harith]
              exact hflag

/-- Parallel preservation: counters never decrease and the error list is
only extended by continuing the loop. -/
lemma runBatchParAux_preserves (cancelAt : Option Nat) (checkT catchT : Nat → Nat)
    (behavior : Nat → RunBehavior) :
    ∀ (ids : List String) (i : Nat) (res : BatchResults),
      res.success ≤ (runBatchParAux cancelAt checkT catchT behavior i ids res).1.success ∧
        res.failed ≤ (runBatchParAux cancelAt checkT catchT behavior i ids res).1.failed ∧
        res.errors <+: (runBatchParAux cancelAt checkT catchT behavior i ids res).1.errors := by
  intro ids
  induction ids with
  | nil => intro i res; simp [runBatchParAux]
  | cons runId rest ih =>
    intro i res
    by_cases hbrk : (i % 10 = 0 ∧ cancelFlagAt cancelAt (checkT (i / 10)) = true)
    · simp [runBatchParAux, hbrk]
    · simp only [runBatchParAux, if_neg hbrk]
      obtain ⟨h1, h2, h3⟩ :=
        ih (i + 1) (processRunPar cancelAt (checkT (i / 10)) (catchT i) runId
          (behavior i) res).1
      refine ⟨le_trans ?_ h1, le_trans ?_ h2,
        (processRunPar_errors cancelAt (checkT (i / 10)) (catchT i) runId
          (behavior i) res).trans h3⟩
      · rw [processRunPar_success]
        omega
      · rw [processRunPar_failed]
        omega

/-- Every parallel-mode run that began executing belonged to a chunk whose
check instant still read false. -/
lemma runBatchParAux_started (cancelAt : Option Nat) (checkT catchT : Nat → Nat)
    (behavior : Nat → RunBehavior) :
    ∀ (ids : List String) (i : Nat) (res : BatchResults),
      ∀ j ∈ (runBatchParAux cancelAt checkT catchT behavior i ids res).2,
        cancelFlagAt cancelAt (checkT (j / 10)) = false := by
  intro ids
  induction ids with
  | nil => intro i res j hj; simp [runBatchParAux] at hj
  | cons runId rest ih =>
    intro i res j hj
    by_cases hbrk : (i % 10 = 0 ∧ cancelFlagAt cancelAt (checkT (i / 10)) = true)
    · simp [runBatchParAux, hbrk] at hj
    · simp only [runBatchParAux, if_neg hbrk, List.mem_append] at hj
      rcases hj with hj1 | hj2
      · by_cases hs : (processRunPar cancelAt (checkT (i / 10)) (catchT i) runId
            (behavior i) res).2 = true
        · rw [if_pos hs] at hj1
          simp only [List.mem_singleton] at hj1
          subst hj1
          rw [processRunPar_started] at hs
          simpa using hs
        · rw [if_neg hs] at hj1
          simp at hj1
      · exact ih (i + 1) _ j hj2

/-- Each requested index falls in exactly one outcome category in the
bounded-concurrency mode, given that a run's rejection is caught no
earlier than its chunk's check. -/
lemma outcome_exactly_one_par (cancelAt : Option Nat) (checkT catchT : Nat → Nat)
    (behavior : Nat → RunBehavior) (i : Nat)
    (hcatch : checkT (i / 10) ≤ catchT i) :
    (successAtPar cancelAt checkT behavior i).toNat +
      (failedAtPar cancelAt checkT catchT behavior i).toNat +
      (skippedAtPar cancelAt checkT catchT behavior i).toNat = 1 := by
  have hmono := cancelFlagAt_mono cancelAt (checkT (i / 10)) (catchT i) hcatch
  cases hb : behavior i <;> cases h1 : cancelFlagAt cancelAt (checkT (i / 10))
  · simp [successAtPar, failedAtPar, skippedAtPar, hb, h1]
  · simp [successAtPar, failedAtPar, skippedAtPar, hb, h1]
  · cases h2 : cancelFlagAt cancelAt (catchT i) <;>
      simp [successAtPar, failedAtPar, skippedAtPar, hb, h1, h2]
  · simp [successAtPar, failedAtPar, skippedAtPar, hb, h1, hmono h1]
  · simp [successAtPar, failedAtPar, skippedAtPar, hb, h1]
  · simp [successAtPar, failedAtPar, skippedAtPar, hb, h1]

/- ── C2: batch outcome counting invariant ────────────────────────────── -/

/-- C2.  In both scheduling modes of `azure:resubmitRuns` — strict
sequence and bounded-concurrency chunks of 10 — the returned results
satisfy `successCount + failedCount + (number of runs skipped or aborted
due to cancellation) = |runIds|`, each requested index falling in exactly
one of the three outcome categories; and a run is in the skipped category
only when cancellation was actually requested (`AbortError` rejections
arise only from the tripped abort signal — the `habortSeq`/`habortPar`
hypotheses; `hmono` orders the chunk-check instants along the timeline
and `hcatch` places each run's catch after its chunk's check). -/
theorem batch_counts_partition (cancelAt : Option Nat) (behavior : Nat → RunBehavior)
    (runIds : List String) (checkT catchT : Nat → Nat)
    (hmono : ∀ a b, a ≤ b → checkT a ≤ checkT b)
    (hcatch : ∀ i, checkT (i / 10) ≤ catchT i)
    (habortSeq : ∀ i, behavior i = .abortedErr → cancelFlagAt cancelAt (2 * i + 1) = true)
    (habortPar : ∀ i, behavior i = .abortedErr → cancelFlagAt cancelAt (catchT i) = true) :
    ((runBatchSeq cancelAt behavior runIds).1.success +
        (runBatchSeq cancelAt behavior runIds).1.failed +
        (List.range runIds.length).countP (skippedAt cancelAt behavior) =
      runIds.length ∧
      (∀ i, i < runIds.length →
        (successAt cancelAt behavior i).toNat + (failedAt cancelAt behavior i).toNat +
          (skippedAt cancelAt behavior i).toNat = 1) ∧
      ((∃ i, i < runIds.length ∧ skippedAt cancelAt behavior i = true) →
        cancelAt ≠ none)) ∧
    ((runBatchPar cancelAt checkT catchT behavior runIds).1.success +
        (runBatchPar cancelAt checkT catchT behavior runIds).1.failed +
        (List.range runIds.length).countP (skippedAtPar cancelAt checkT catchT behavior) =
      runIds.length ∧
      (∀ i, i < runIds.length →
        (successAtPar cancelAt checkT behavior i).toNat +
          (failedAtPar cancelAt checkT catchT behavior i).toNat +
          (skippedAtPar cancelAt checkT catchT behavior i).toNat = 1) ∧
      ((∃ i, i < runIds.length ∧ skippedAtPar cancelAt checkT catchT behavior i = true) →
        cancelAt ≠ none)) := by
  constructor
  · refine ⟨?_, fun i _ => outcome_exactly_one cancelAt behavior i, ?_⟩
    · have hs := runBatchSeqAux_success cancelAt behavior runIds 0 ⟨0, 0, false, []⟩
      have hfl := runBatchSeqAux_failed cancelAt behavior runIds 0 ⟨0, 0, false, []⟩
      have hfun1 : (fun j => successAt cancelAt behavior (0 + j)) =
          successAt cancelAt behavior := by
        funext j
        simp
      have hfun2 : (fun j => failedAt cancelAt behavior (0 + j)) =
          failedAt cancelAt behavior := by
        funext j
        simp
      rw [hfun1] at hs
      rw [hfun2] at hfl
      have hz1 : (⟨0, 0, false, []⟩ : BatchResults).success = 0 := rfl
      have hz2 : (⟨0, 0, false, []⟩ : BatchResults).failed = 0 := rfl
      rw [hz1] at hs
      rw [hz2] at hfl
      have hsum := countP_three (successAt cancelAt behavior) (failedAt cancelAt behavior)
        (skippedAt cancelAt behavior) (List.range runIds.length)
        (fun x _ => outcome_exactly_one cancelAt behavior x)
      rw [List.length_range] at hsum
      show (runBatchSeqAux cancelAt behavior 0 runIds ⟨0, 0, false, []⟩).1.success +
          (runBatchSeqAux cancelAt behavior 0 runIds ⟨0, 0, false, []⟩).1.failed + _ = _
      omega
    · rintro ⟨i, _, hskip⟩ hnone
      subst hnone
      cases hb : behavior i with
      | ok => simp [skippedAt, cancelFlagAt, hb] at hskip
      | err m => simp [skippedAt, cancelFlagAt, hb] at hskip
      | abortedErr =>
        have := habortSeq i hb
        simp [cancelFlagAt] at this
  · refine ⟨?_, fun i _ => outcome_exactly_one_par cancelAt checkT catchT behavior i
      (hcatch i), ?_⟩
    · have hs := runBatchParAux_success cancelAt checkT catchT behavior hmono runIds 0
        ⟨0, 0, false, []⟩
      have hfl := runBatchParAux_failed cancelAt checkT catchT behavior hmono runIds 0
        ⟨0, 0, false, []⟩
      have hfun1 : (fun j => successAtPar cancelAt checkT behavior (0 + j)) =
          successAtPar cancelAt checkT behavior := by
        funext j
        simp
      have hfun2 : (fun j => failedAtPar cancelAt checkT catchT behavior (0 + j)) =
          failedAtPar cancelAt checkT catchT behavior := by
        funext j
        simp
      rw [hfun1] at hs
      rw [hfun2] at hfl
      have hz1 : (⟨0, 0, false, []⟩ : BatchResults).success = 0 := rfl
      have hz2 : (⟨0, 0, false, []⟩ : BatchResults).failed = 0 := rfl
      rw [hz1] at hs
      rw [hz2] at hfl
      have hsum := countP_three (successAtPar cancelAt checkT behavior)
        (failedAtPar cancelAt checkT catchT behavior)
        (skippedAtPar cancelAt checkT catchT behavior) (List.range runIds.length)
        (fun x _ => outcome_exactly_one_par cancelAt checkT catchT behavior x (hcatch x))
      rw [List.length_range] at hsum
      show (runBatchParAux cancelAt checkT catchT behavior 0 runIds
          ⟨0, 0, false, []⟩).1.success +
          (runBatchParAux cancelAt checkT catchT behavior 0 runIds
            ⟨0, 0, false, []⟩).1.failed + _ = _
      omega
    · rintro ⟨i, _, hskip⟩ hnone
      subst hnone
      cases hb : behavior i with
      | ok => simp [skippedAtPar, cancelFlagAt, hb] at hskip
      | err m => simp [skippedAtPar, cancelFlagAt, hb] at hskip
      | abortedErr =>
        have := habortPar i hb
        simp [cancelFlagAt] at this

/-- C2 witness: three runs, the first succeeding, cancellation arriving
while the second is in flight (so it and the third abort): in each mode
1 success + 0 failed + 2 skipped = 3 requested, the sequential result
record being `{1, 0, true, []}` (the third run's loop check sees the
flag) and the bounded-concurrency one `{1, 0, false, []}` (all three runs
share the already-admitted first chunk). -/
theorem batch_counts_partition_witness :
    (((runBatchSeq (some 3) (fun i => if i = 0 then RunBehavior.ok else .abortedErr)
          ["a", "b", "c"]).1.success +
        (runBatchSeq (some 3) (fun i => if i = 0 then RunBehavior.ok else .abortedErr)
          ["a", "b", "c"]).1.failed +
        (List.range (["a", "b", "c"] : List String).length).countP
          (skippedAt (some 3) (fun i => if i = 0 then RunBehavior.ok else .abortedErr)) =
      (["a", "b", "c"] : List String).length) ∧
      (runBatchSeq (some 3) (fun i => if i = 0 then RunBehavior.ok else .abortedErr)
        ["a", "b", "c"]).1 = ⟨1, 0, true, []⟩) ∧
    (((runBatchPar (some 3) (fun k => 4 * k) (fun i => 3 + i)
          (fun i => if i = 0 then RunBehavior.ok else .abortedErr)
          ["a", "b", "c"]).1.success +
        (runBatchPar (some 3) (fun k => 4 * k) (fun i => 3 + i)
          (fun i => if i = 0 then RunBehavior.ok else .abortedErr)
          ["a", "b", "c"]).1.failed +
        (List.range (["a", "b", "c"] : List String).length).countP
          (skippedAtPar (some 3) (fun k => 4 * k) (fun i => 3 + i)
            (fun i => if i = 0 then RunBehavior.ok else .abortedErr)) =
      (["a", "b", "c"] : List String).length) ∧
      (runBatchPar (some 3) (fun k => 4 * k) (fun i => 3 + i)
          (fun i => if i = 0 then RunBehavior.ok else .abortedErr)
          ["a", "b", "c"]).1 = ⟨1, 0, false, []⟩) :=
  ⟨⟨(batch_counts_partition (some 3)
      (fun i => if i = 0 then RunBehavior.ok else .abortedErr) ["a", "b", "c"]
      (fun k => 4 * k) (fun i => 3 + i)
      (by intro a b h; show 4 * a ≤ 4 * b; omega)
      (by intro i; show 4 * (i / 10) ≤ 3 + i; omega)
      (by
        intro i h
        match i with
        | 0 => simp at h
        | Nat.succ n =>
          simp only [cancelFlagAt, decide_eq_true_eq]
          omega)
      (by
        intro i _
        simp only [cancelFlagAt, decide_eq_true_eq]
        omega)).1.1,
    by decide⟩,
    ⟨(batch_counts_partition (some 3)
      (fun i => if i = 0 then RunBehavior.ok else .abortedErr) ["a", "b", "c"]
      (fun k => 4 * k) (fun i => 3 + i)
      (by intro a b h; show 4 * a ≤ 4 * b; omega)
      (by intro i; show 4 * (i / 10) ≤ 3 + i; omega)
      (by
        intro i h
        match i with
        | 0 => simp at h
        | Nat.succ n =>
          simp only [cancelFlagAt, decide_eq_true_eq]
          omega)
      (by
        intro i _
        simp only [cancelFlagAt, decide_eq_true_eq]
        omega)).2.1,
    by decide⟩⟩

/- ── C3: cancellation mid-batch ──────────────────────────────────────── -/

/-- C3 counterexample: cancellation is requested while the only (hence
final) run is in flight — the run aborts, consistently with the abort
signal being tripped — yet the returned BatchResult has `cancelled =
false`, because the flag is only set at a top-of-loop check and no check
remains.  The claim's `cancelled = true` conjunct is therefore false as
stated. -/
theorem cancel_during_final_run_not_reported :
    cancelFlagAt (some 1) (2 * 0 + 1) = true ∧
    (runBatchSeq (some 1) (fun _ => RunBehavior.abortedErr) ["r0"]).1.cancelled = false := by
  decide

/-- C3 as amended.  In both scheduling modes of `azure:resubmitRuns`:
(a) every run that begins execution passed a cancellation check that
still read false — once cancellation is visible at the checks no new run
starts; (b) outcomes already recorded are preserved: continuing either
loop never decreases the counters and only extends the error list;
(c) the final BatchResult has `cancelled = true` whenever cancellation
becomes visible at a remaining top-of-loop check — per run in sequential
mode, per chunk of 10 in bounded-concurrency mode; only a cancellation
arriving after the final run (respectively the final chunk) has begun can
leave `cancelled = false`, as the counterexample shows. -/
theorem cancellation_mid_batch (cancelAt : Option Nat) (behavior : Nat → RunBehavior)
    (runIds : List String) (checkT catchT : Nat → Nat) :
    ((∀ j ∈ (runBatchSeq cancelAt behavior runIds).2,
        cancelFlagAt cancelAt (2 * j) = false) ∧
      ∀ j ∈ (runBatchPar cancelAt checkT catchT behavior runIds).2,
        cancelFlagAt cancelAt (checkT (j / 10)) = false) ∧
    ((∀ (ids : List String) (i : Nat) (res : BatchResults),
        res.success ≤ (runBatchSeqAux cancelAt behavior i ids res).1.success ∧
        res.failed ≤ (runBatchSeqAux cancelAt behavior i ids res).1.failed ∧
        res.errors <+: (runBatchSeqAux cancelAt behavior i ids res).1.errors) ∧
      ∀ (ids : List String) (i : Nat) (res : BatchResults),
        res.success ≤ (runBatchParAux cancelAt checkT catchT behavior i ids res).1.success ∧
        res.failed ≤ (runBatchParAux cancelAt checkT catchT behavior i ids res).1.failed ∧
        res.errors <+: (runBatchParAux cancelAt checkT catchT behavior i ids res).1.errors) ∧
    (((∃ j, j < runIds.length ∧ cancelFlagAt cancelAt (2 * j) = true) →
        (runBatchSeq cancelAt behavior runIds).1.cancelled = true) ∧
      ((∃ k, 10 * k < runIds.length ∧ cancelFlagAt cancelAt (checkT k) = true) →
        (runBatchPar cancelAt checkT catchT behavior runIds).1.cancelled = true)) := by
  refine ⟨⟨runBatchSeqAux_started cancelAt behavior runIds 0 ⟨0, 0, false, []⟩,
      runBatchParAux_started cancelAt checkT catchT behavior runIds 0 ⟨0, 0, false, []⟩⟩,
    ⟨runBatchSeqAux_preserves cancelAt behavior,
      runBatchParAux_preserves cancelAt checkT catchT behavior⟩, ?_, ?_⟩
  · rintro ⟨j, hj, hflag⟩
    refine (runBatchSeqAux_cancelled cancelAt behavior runIds 0 ⟨0, 0, false, []⟩).mpr
      (Or.inr ⟨j, hj, ?_⟩)
    simpa using hflag
  · rintro ⟨k, hk, hflag⟩
    refine (runBatchParAux_cancelled cancelAt checkT catchT behavior runIds 0
      ⟨0, 0, false, []⟩).mpr (Or.inr ⟨10 * k, by omega, ?_, ?_⟩)
    · omega
    · have harith : (0 + 10 * k) / 10 = k := by omega
      rw [harith]
      exact hflag

/-- C3 witness: cancellation requested before the batch starts — in
either mode no run begins and the result reports `cancelled = true`. -/
theorem cancellation_mid_batch_witness :
    (runBatchSeq (some 0) (fun _ => RunBehavior.ok) ["a", "b"]).1.cancelled = true ∧
    (runBatchPar (some 0) (fun k => k) (fun i => i)
        (fun _ => RunBehavior.ok) ["a", "b"]).1.cancelled = true :=
  ⟨(cancellation_mid_batch (some 0) (fun _ => RunBehavior.ok) ["a", "b"]
      (fun k => k) (fun i => i)).2.2.1 ⟨0, by decide, by decide⟩,
    (cancellation_mid_batch (some 0) (fun _ => RunBehavior.ok) ["a", "b"]
      (fun k => k) (fun i => i)).2.2.2 ⟨0, by decide, by decide⟩⟩

/- ── C8: callback replay request derivation ──────────────────────────── -/

/-- The derived method does not depend on which body branch is taken. -/
lemma extractReplayParts_method (fs : List (String × J)) (cb : UrlModel) :
    (extractReplayParts (J.obj fs) cb).method =
      (match jsStrField (J.obj fs) "method" with
       | some m => strToUpper m
       | none => "POST") := by
  rcases hb : fs.lookup "body" with _ | rb
  · simp [extractReplayParts, jGet, hb]
  · cases rb with
    | obj bfs =>
      rcases hc : bfs.lookup "$content" with _ | c
      · simp [extractReplayParts, jGet, hb, hc]
      · simp [extractReplayParts, jGet, hb, hc]
    | null => simp [extractReplayParts, jGet, hb]
    | bool b => simp [extractReplayParts, jGet, hb]
    | num n => simp [extractReplayParts, jGet, hb]
    | str s => simp [extractReplayParts, jGet, hb]

/-- The derived target URL does not depend on which body branch is taken. -/
lemma extractReplayParts_url (fs : List (String × J)) (cb : UrlModel) :
    (extractReplayParts (J.obj fs) cb).url =
      (match jsStrField (J.obj fs) "relativePath" with
       | some rp =>
         { cb with pathname := ensureTrailingSlash cb.pathname ++ stripLeadingSlash rp }
       | none => cb) := by
  rcases hb : fs.lookup "body" with _ | rb
  · simp [extractReplayParts, jGet, hb]
  · cases rb with
    | obj bfs =>
      rcases hc : bfs.lookup "$content" with _ | c
      · simp [extractReplayParts, jGet, hb, hc]
      · simp [extractReplayParts, jGet, hb, hc]
    | null => simp [extractReplayParts, jGet, hb]
    | bool b => simp [extractReplayParts, jGet, hb]
    | num n => simp [extractReplayParts, jGet, hb]
    | str s => simp [extractReplayParts, jGet, hb]

/-- C8.  For a replay whose captured trigger-input envelope is a JSON
object, the issued request: never carries an `Authorization` header (its
header list is exactly the content type); uses the envelope's method
upper-cased, `POST` when absent; appends the envelope's `relativePath` to
the callback URL's pathname (query untouched) and leaves the URL unchanged
when absent; when the body is a content-reference wrapper, sends the
unwrapped `$content` with `$content-type` overriding the content type;
otherwise takes `Content-Type` from the envelope headers, defaulting to
`application/json` when absent. -/
theorem replay_request_derivation (fs : List (String × J)) (cb : UrlModel) :
    (∀ v, ("Authorization", v) ∉ (replayRequest (J.obj fs) cb).headers) ∧
    (∀ m, fs.lookup "method" = some (J.str m) → m ≠ "" →
        (replayRequest (J.obj fs) cb).method = strToUpper m) ∧
    (fs.lookup "method" = none → (replayRequest (J.obj fs) cb).method = "POST") ∧
    (∀ rp, fs.lookup "relativePath" = some (J.str rp) → rp ≠ "" →
        (replayRequest (J.obj fs) cb).url =
          ⟨ensureTrailingSlash cb.pathname ++ stripLeadingSlash rp, cb.query⟩) ∧
    (fs.lookup "relativePath" = none → (replayRequest (J.obj fs) cb).url = cb) ∧
    (∀ bfs c s, fs.lookup "body" = some (J.obj bfs) → bfs.lookup "$content" = some c →
        bfs.lookup "$content-type" = some (J.str s) → s ≠ "" →
        (replayRequest (J.obj fs) cb).body = serializeBody (some c) ∧
        (replayRequest (J.obj fs) cb).headers = [("Content-Type", s)]) ∧
    (∀ hds ct, fs.lookup "headers" = some (J.obj hds) →
        hds.lookup "Content-Type" = some (J.str ct) → ct ≠ "" → fs.lookup "body" = none →
        (replayRequest (J.obj fs) cb).headers = [("Content-Type", ct)] ∧
        (replayRequest (J.obj fs) cb).body = none) ∧
    (fs.lookup "headers" = none → fs.lookup "body" = none →
        (replayRequest (J.obj fs) cb).headers = [("Content-Type", "application/json")]) := by
  refine ⟨?_, ?_, ?_, ?_, ?_, ?_, ?_, ?_⟩
  · intro v hv
    simp only [replayRequest, rawPostRequest, List.mem_singleton, Prod.mk.injEq] at hv
    exact absurd hv.1 (by decide)
  · intro m hm hne
    simp [replayRequest, rawPostRequest, extractReplayParts_method, jsStrField, jGet, hm, hne]
  · intro hm
    simp [replayRequest, rawPostRequest, extractReplayParts_method, jsStrField, jGet, hm]
  · intro rp hrp hne
    simp [replayRequest, rawPostRequest, extractReplayParts_url, jsStrField, jGet, hrp, hne]
  · intro hrp
    simp [replayRequest, rawPostRequest, extractReplayParts_url, jsStrField, jGet, hrp]
  · intro bfs c s hb hc hct hne
    constructor <;>
      simp [replayRequest, rawPostRequest, extractReplayParts, jGet, hb, hc, hct, hne]
  · intro hds ct hh hct hne hb
    constructor <;>
      simp [replayRequest, rawPostRequest, extractReplayParts, serializeBody, jGet,
        jsStrField, jsTruthy, hh, hct, hne, hb]
  · intro hh hb
    simp [replayRequest, rawPostRequest, extractReplayParts, jGet, jsStrField, hh, hb]

/-- Envelope of the spec's replay example. -/
def replayEnvFields : List (String × J) :=
  [("method", J.str "POST"),
   ("headers", J.obj [("Content-Type", J.str "application/xml")]),
   ("body", J.obj [("$content", J.str "<a/>"), ("$content-type", J.str "application/xml")])]

/-- Callback URL used by the replay example (SAS signature in the query). -/
def replayCbUrl : UrlModel := ⟨"/api/manual/invoke", "?api-version=2022-05-01&sig=abc"⟩

/-- C8 witness: the spec's example envelope yields an unauthenticated POST
with content type `application/xml` and body `<a/>`, to the unchanged
callback URL. -/
theorem replay_request_derivation_witness :
    (replayRequest (J.obj replayEnvFields) replayCbUrl).method = "POST" ∧
    (replayRequest (J.obj replayEnvFields) replayCbUrl).url = replayCbUrl ∧
    (replayRequest (J.obj replayEnvFields) replayCbUrl).headers =
      [("Content-Type", "application/xml")] ∧
    (replayRequest (J.obj replayEnvFields) replayCbUrl).body = some "<a/>" ∧
    ∀ v, ("Authorization", v) ∉ (replayRequest (J.obj replayEnvFields) replayCbUrl).headers :=
  ⟨((replay_request_derivation replayEnvFields replayCbUrl).2.1 "POST" rfl
      (by decide)).trans (by decide),
    (replay_request_derivation replayEnvFields replayCbUrl).2.2.2.2.1 rfl,
    ((replay_request_derivation replayEnvFields replayCbUrl).2.2.2.2.2.1
      [("$content", J.str "<a/>"), ("$content-type", J.str "application/xml")]
      (J.str "<a/>") "application/xml" rfl rfl rfl (by decide)).2,
    ((replay_request_derivation replayEnvFields replayCbUrl).2.2.2.2.2.1
      [("$content", J.str "<a/>"), ("$content-type", J.str "application/xml")]
      (J.str "<a/>") "application/xml" rfl rfl rfl (by decide)).1.trans rfl,
    (replay_request_derivation replayEnvFields replayCbUrl).1⟩

end LogicAppResubmitter
